import Mathlib

/-!
# jsonnet-language-server: position query and symbol resolver

A shallow embedding of the analysis core of the language server
(`pkg/analysis/lexical/locate`, `pkg/analysis/lexical/astext` and
`pkg/analysis/lexical/hover_visitor.go`) together with theorems about it.

Conventions of the embedding:

* Go `int` coordinates are `Int`; the code only compares them (the two
  additions in `locate.DesugaredObjectField` and the counters of
  `extractRange` never come near the 64-bit limits).
* A Go function returning `(T, error)` returns `Res T`; a run-time panic
  (nil dereference, explicit `panic`) is the separate `Exc.panic` outcome.
* Functions that chase imports through the node cache can recurse for ever in
  Go; they take a `fuel : Nat` and return `none` when the fuel runs out.
* Logging calls have no effect on the results and are left out.
-/

namespace ast

/-- A source position, `ast.Location` of go-jsonnet. -/
structure Location where
  Line : Int
  Column : Int
deriving DecidableEq, Repr

/-- A source range, `ast.LocationRange` of go-jsonnet. -/
structure LocationRange where
  FileName : String
  Begin : Location
  End : Location
deriving DecidableEq, Repr

/-- The zero value `ast.LocationRange{}`. -/
def LocationRange.zero : LocationRange := ⟨"", ⟨0, 0⟩, ⟨0, 0⟩⟩

/-- Values of `ast.ObjectFieldHide` (an `iota` enumeration of go-jsonnet). -/
def ObjectFieldHidden : Int := 0

/-- The field is written `f: e`. -/
def ObjectFieldInherit : Int := 1

/-- The field is written `f::: e`. -/
def ObjectFieldVisible : Int := 2

mutual
/-- An `ast.Node` held through a non-nil pointer: the range stored in its
`NodeBase` (what `Loc()` points to) and the concrete node type with the fields
the analysis code reads. -/
inductive Node where
  | mk (loc : LocationRange) (kind : NodeKind)
/-- The concrete Go type behind an `ast.Node`. `Other` stands for every node
type the analysis code has no case for; it carries the text `%T` prints. -/
inductive NodeKind where
  | Apply
  | Array
  | ArrayComp
  | Binary
  | Conditional
  | DesugaredObject
  | Function (Parameters : Parameters)
  | LiteralBoolean
  | LiteralNull
  | LiteralNumber (OriginalString : String)
  | LiteralString (Value : String)
  | Import (File : String)
  | ImportStr (File : String)
  | Index (Target : Node) (Index : Option Node) (Id : Option String)
  | Local (Binds : List LocalBind) (Body : Node)
  | Object (Fields : List ObjectField)
  | Self
  | SuperIndex (Id : Option String)
  | Var (Id : String)
  | PartialNode
  | Other (goType : String)
/-- An `ast.ObjectField`: visibility, the identifier (`Id`, nil for a computed
or quoted name), the name expression `Expr1` (may be nil) and the value
`Expr2`. -/
inductive ObjectField where
  | mk (Hide : Int) (Id : Option String) (Expr1 : Option Node) (Expr2 : Node)
/-- An `ast.LocalBind`: the bound variable and the bound expression. -/
inductive LocalBind where
  | mk (Variable : String) (Body : Node)
/-- An `ast.NamedParameter`: an optional parameter with its default. -/
inductive NamedParameter where
  | mk (Name : String) (DefaultArg : Node)
/-- The `ast.Parameters` of a function: required names, then optional ones. -/
inductive Parameters where
  | mk (Required : List String) (Optional : List NamedParameter)
end

/-- The range stored in the node, `*n.Loc()`. -/
def Node.loc : Node → LocationRange
  | .mk l _ => l

/-- The concrete type of the node. -/
def Node.kind : Node → NodeKind
  | .mk _ k => k

def ObjectField.Hide : ObjectField → Int
  | .mk h _ _ _ => h

def ObjectField.Id : ObjectField → Option String
  | .mk _ i _ _ => i

def ObjectField.Expr1 : ObjectField → Option Node
  | .mk _ _ e _ => e

def ObjectField.Expr2 : ObjectField → Node
  | .mk _ _ _ e => e

def LocalBind.Variable : LocalBind → String
  | .mk v _ => v

def LocalBind.Body : LocalBind → Node
  | .mk _ b => b

def NamedParameter.Name : NamedParameter → String
  | .mk n _ => n

def NamedParameter.DefaultArg : NamedParameter → Node
  | .mk _ d => d

def Parameters.Required : Parameters → List String
  | .mk r _ => r

def Parameters.Optional : Parameters → List NamedParameter
  | .mk _ o => o

/-- An `ast.DesugaredObjectField`; `Name` and `Body` are nodes. -/
structure DesugaredObjectField where
  Hide : Int
  Name : Node
  Body : Node

end ast

namespace astext

/-- The type `astext.RequiredParameter`, a required parameter wrapped as a
token of its own. -/
structure RequiredParameter where
  ID : String

end astext

/-- A Go `interface{}` token as the visitor and the resolver receive it: a
pointer to a node, one of the value types the walker hands out, the nil
interface, or a value of any other type (with the text `%T` prints). -/
inductive Token where
  | nil
  | node (n : ast.Node)
  | DesugaredObjectField (f : ast.DesugaredObjectField)
  | ForSpec
  | Identifier (id : String)
  | IdentifierPtr (id : String)
  | LocalBind (b : ast.LocalBind)
  | NamedParameter (p : ast.NamedParameter)
  | ObjectField (f : ast.ObjectField)
  | RequiredParameter (p : astext.RequiredParameter)
  | other (goType : String)

/-- The token of an `ast.Node` interface value that may be nil. -/
def Token.ofNode : Option ast.Node → Token
  | none => .nil
  | some n => .node n

/-- Errors the analysis code creates or passes on. Each constructor is one
`errors.New`/`errors.Errorf` site (with the values it formats), the sentinel
`ErrUnresolvable`, the cache-miss error type, or any other error a
collaborator returns. -/
inductive Error where
  | ErrUnresolvable
  | NodeCacheMissErr
  | locatableIsNil
  | indexWithoutId
  | notInEnv (varID : String)
  | indexTarget (goType : String)
  | functionContext (goType : String)
  | fieldNotFound (name : String)
  | objectIsNil
  | unknownVisibility (hide : Int)
  | unableToLocate (goType : String)
  | desugaredFieldName (goType : String)
  | external (msg : String)
deriving DecidableEq, Repr

/-- How a call can fail: with a Go `error` value or with a run-time panic. -/
inductive Exc where
  | error (e : Error)
  | panic (msg : String)
deriving DecidableEq, Repr

/-- The result of a Go function that returns `(T, error)` or panics. -/
abbrev Res (α : Type) := Except Exc α

/-- The panic of dereferencing a nil pointer. -/
def nilDeref : Exc := .panic "invalid memory address or nil pointer dereference"

/-- The text `%T` prints for a node type. -/
def ast.NodeKind.goType : ast.NodeKind → String
  | .Apply => "*ast.Apply"
  | .Array => "*ast.Array"
  | .ArrayComp => "*ast.ArrayComp"
  | .Binary => "*ast.Binary"
  | .Conditional => "*ast.Conditional"
  | .DesugaredObject => "*ast.DesugaredObject"
  | .Function _ => "*ast.Function"
  | .LiteralBoolean => "*ast.LiteralBoolean"
  | .LiteralNull => "*ast.LiteralNull"
  | .LiteralNumber _ => "*ast.LiteralNumber"
  | .LiteralString _ => "*ast.LiteralString"
  | .Import _ => "*ast.Import"
  | .ImportStr _ => "*ast.ImportStr"
  | .Index _ _ _ => "*ast.Index"
  | .Local _ _ => "*ast.Local"
  | .Object _ => "*ast.Object"
  | .Self => "*ast.Self"
  | .SuperIndex _ => "*ast.SuperIndex"
  | .Var _ => "*ast.Var"
  | .PartialNode => "*astext.Partial"
  | .Other t => t

/-- The text `%T` prints for a token. -/
def Token.goType : Token → String
  | .nil => "<nil>"
  | .node n => n.kind.goType
  | .DesugaredObjectField _ => "ast.DesugaredObjectField"
  | .ForSpec => "ast.ForSpec"
  | .Identifier _ => "ast.Identifier"
  | .IdentifierPtr _ => "*ast.Identifier"
  | .LocalBind _ => "ast.LocalBind"
  | .NamedParameter _ => "ast.NamedParameter"
  | .ObjectField _ => "ast.ObjectField"
  | .RequiredParameter _ => "astext.RequiredParameter"
  | .other t => t

namespace locate

open ast

/-- The function `inRange` of desugared_object.go. -/
def inRange (l : Location) (lr : LocationRange) : Bool :=
  if lr.Begin.Line = l.Line ∧ l.Line = lr.End.Line ∧
      lr.Begin.Column ≤ l.Column ∧ l.Column ≤ lr.End.Column then
    true
  else if lr.Begin.Line < l.Line ∧ l.Line = lr.End.Line ∧
      l.Column ≤ lr.End.Column then
    true
  else if lr.Begin.Line = l.Line ∧ l.Line < lr.End.Line ∧
      l.Column ≥ lr.Begin.Column then
    true
  else if lr.Begin.Line < l.Line ∧ l.Line < lr.End.Line then
    true
  else
    false

/-- The function `beforeRangeOrEqual` of desugared_object.go. -/
def beforeRangeOrEqual (l : Location) (r : LocationRange) : Bool :=
  let begin := r.Begin
  if l.Line < begin.Line then
    true
  else if l.Line = begin.Line ∧ l.Column ≤ begin.Column then
    true
  else
    false

/-- The function `afterRangeOrEqual` of desugared_object.go. -/
def afterRangeOrEqual (l : Location) (lr : LocationRange) : Bool :=
  let end_ := lr.End
  if l.Line > end_.Line then
    true
  else if l.Line = end_.Line ∧ l.Column ≥ end_.Column then
    true
  else
    false

/-- The function `isRangeSmaller` of desugared_object.go. -/
def isRangeSmaller (r1 r2 : LocationRange) : Bool :=
  beforeRangeOrEqual r1.Begin r2 && afterRangeOrEqual r1.End r2

/-- The scanner state of `extractRange`: current line, current column and the
text collected so far. -/
structure ScanState where
  line : Int
  col : Int
  buf : String

/-- One iteration of the scanning loop of `extractRange` on the rune `cur`. -/
def extractStep (r : LocationRange) (st : ScanState) (cur : Char) : ScanState :=
  let line := if cur = '\n' then st.line + 1 else st.line
  let col := if cur = '\n' then 1 else st.col
  let buf := if inRange ⟨line, col⟩ r then st.buf.push cur else st.buf
  ⟨line, col + 1, buf⟩

/-- The function `extractRange` of desugared_object.go. Scanning a string held
in memory rune by rune cannot fail, so the error result is left out. -/
def extractRange (source : String) (r : LocationRange) : String :=
  (source.toList.foldl (extractStep r) ⟨1, 1, ""⟩).buf

end locate

/-- Lexicographic order on positions: line first, then column. -/
def lexLe (a b : ast.Location) : Prop :=
  a.Line < b.Line ∨ (a.Line = b.Line ∧ a.Column ≤ b.Column)

instance (a b : ast.Location) : Decidable (lexLe a b) := by
  unfold lexLe
  infer_instance

namespace astext

open ast

/-- The function `TokenValue` of token.go. -/
def TokenValue (token : Token) : String :=
  match token with
  | .node (.mk _ (.LiteralNumber originalString)) => originalString
  | .node (.mk _ (.LiteralString value)) => value
  | t => "unknown value from " ++ t.goType

/-- The function `ObjectFieldName` of token.go; a field with neither an
identifier nor a name expression makes it panic. -/
def ObjectFieldName (f : ObjectField) : Res String :=
  match f.Id with
  | some id => .ok id
  | none =>
    match f.Expr1 with
    | some e => .ok (TokenValue (.node e))
    | none => .error (.panic "object field does not have a name")

/-- The function `TokenName` of token.go. Dereferencing the nil `Id` of a
`super[e]` node panics. -/
def TokenName (token : Token) : Res String :=
  match token with
  | .node (.mk _ .Apply) => .ok "(apply)"
  | .node (.mk _ .Array) => .ok "(array)"
  | .node (.mk _ .ArrayComp) => .ok "(arraycomp)"
  | .node (.mk _ .Binary) => .ok "(binary)"
  | .node (.mk _ .Conditional) => .ok "(conditional)"
  | .node (.mk _ .DesugaredObject) => .ok "(object)"
  | .DesugaredObjectField t => .ok ("(field) " ++ TokenValue (.node t.Name))
  | .ForSpec => .ok "forspec"
  | .node (.mk _ (.Function _)) => .ok "(function)"
  | .node (.mk _ .LiteralBoolean) => .ok "(bool)"
  | .node (.mk _ .LiteralNull) => .ok "(null)"
  | .node (.mk _ (.LiteralNumber _)) => .ok "(number)"
  | .node (.mk _ (.LiteralString _)) => .ok "(string)"
  | .Identifier t => .ok ("(identifier) " ++ t)
  | .IdentifierPtr t => .ok ("(identifier) " ++ t)
  | .node (.mk _ (.Import file)) => .ok ("(import) " ++ file)
  | .node (.mk _ (.ImportStr file)) => .ok ("(importstr) " ++ file)
  | .node (.mk _ (.Index _ index none)) =>
    .ok ("(array index) [" ++ TokenValue (Token.ofNode index) ++ "]")
  | .node (.mk _ (.Index _ _ (some id))) => .ok ("(index) " ++ id)
  | .node (.mk _ (.Local _ _)) => .ok "(local)"
  | .LocalBind t => .ok ("(local bind) " ++ t.Variable)
  | .NamedParameter t =>
    let val := TokenValue (.node t.DefaultArg)
    .ok ("(optional parameter) " ++ t.Name ++ "=" ++ val)
  | .node (.mk _ (.Object _)) => .ok "(object)"
  | .ObjectField t =>
    match ObjectFieldName t with
    | .ok name => .ok ("(field) " ++ name)
    | .error e => .error e
  | .node (.mk _ .Self) => .ok "(self)"
  | .node (.mk _ (.SuperIndex none)) => .error nilDeref
  | .node (.mk _ (.SuperIndex (some id))) => .ok ("(super index) " ++ id)
  | .node (.mk _ (.Var id)) => .ok ("(var) " ++ id)
  | .RequiredParameter t => .ok ("(required parameter) " ++ t.ID)
  | t => .ok ("(unknown) " ++ t.goType)

/-- The function `ObjectFieldVisibility` of token.go. -/
def ObjectFieldVisibility (f : ObjectField) : Res String :=
  if f.Hide = ObjectFieldHidden then .ok "::"
  else if f.Hide = ObjectFieldInherit then .ok ":"
  else if f.Hide = ObjectFieldVisible then .ok ":::"
  else .error (.error (.unknownVisibility f.Hide))

/-- The loop of `ObjectDescription` over the fields from index `i` on, with
`buf` the text written so far. -/
def objectDescriptionLoop : List ObjectField → Nat → String → Res String
  | [], _, buf => .ok buf
  | field :: rest, i, buf =>
    let buf := if i = 0 then buf ++ "\n" else buf
    match ObjectFieldName field with
    | .error e => .error e
    | .ok fieldName =>
      match ObjectFieldVisibility field with
      | .error e => .error e
      | .ok visibility =>
        objectDescriptionLoop rest (i + 1)
          (buf ++ ("  (field) " ++ fieldName ++ visibility ++ ",\n"))

/-- The function `ObjectDescription` of token.go. The argument is the
`*ast.Object` pointer: `none` is nil, `some fields` an object with these
`Fields`. -/
def ObjectDescription (o : Option (List ObjectField)) : Res String :=
  match o with
  | none => .error (.error .objectIsNil)
  | some fields =>
    match objectDescriptionLoop fields 0 "(object) \x7b" with
    | .error e => .error e
    | .ok buf => .ok (buf ++ "\x7d")

end astext

namespace locate

open ast astext

/-- The struct `Locatable` of locatable.go; `Env` is the Go map
`map[string]Locatable`, held as a list of bindings that is searched from the
front. -/
structure Locatable where
  Token : Token
  Loc : LocationRange
  Parent : Option Locatable
  Env : List (String × Locatable)

/-- The map type `Env` of locatable.go. -/
abbrev Env := List (String × Locatable)

/-- The struct `Resolved` of locatable.go. -/
structure Resolved where
  Location : LocationRange
  Token : Token
  Description : String

/-- An entry of the node cache: the root node of a parsed file. -/
structure NodeEntry where
  Node : Node

/-- Modelled from the spec: the type `NodeCache` and its method `Get` are not
among the sources. Section 4.5: `get(key)` gives the cached tree of the key or
fails, a miss being the distinguished error `NodeCacheMissErr` and every other
failure an ordinary error. -/
structure NodeCache where
  Get : String → Except Error NodeEntry

/-- The function `importDescription` of locatable.go, with the function it
calls on a hit (`resolvedIdentifier`) as an argument. -/
def importDescriptionWith
    (resolvedIdentifier : Token → List String → NodeCache → Option (Res String))
    (file : String) (jPaths : List String) (cache : NodeCache) :
    Option (Res String) :=
  match cache.Get file with
  | .error .NodeCacheMissErr => some (.ok "node cache miss")
  | .error err => some (.error (.error err))
  | .ok ne => resolvedIdentifier (.node ne.Node) jPaths cache

/-- The function `resolvedIdentifier` of locatable.go. -/
def resolvedIdentifier :
    Nat → Token → List String → NodeCache → Option (Res String)
  | 0, _, _, _ => none
  | fuel + 1, item, jPaths, cache =>
    match item with
    | .node (.mk _ (.Import file)) =>
      importDescriptionWith (resolvedIdentifier fuel) file jPaths cache
    | .node (.mk _ (.Object fields)) => some (ObjectDescription (some fields))
    | t => some (TokenName t)

/-- The function `importDescription` of locatable.go. -/
def importDescription (fuel : Nat) (file : String) (jPaths : List String)
    (cache : NodeCache) : Option (Res String) :=
  importDescriptionWith (resolvedIdentifier fuel) file jPaths cache

/-- The field loop of `describeInObject`: the first field whose name is `name`
is described with the remaining names; a field without a name met before it
panics; no such field is the "unable to find field" error. -/
def describeFields (describe : Token → List String → Option (Res String))
    (name : String) (rest : List String) :
    List ObjectField → Option (Res String)
  | [] => some (.error (.error (.fieldNotFound name)))
  | f :: fs =>
    match ObjectFieldName f with
    | .error e => some (.error e)
    | .ok n =>
      if n ≠ name then describeFields describe name rest fs
      else describe (.node f.Expr2) rest

/-- The function `describeInObject` of locatable.go, with the function it
calls on the matching field (`describe`) as an argument. -/
def describeInObjectWith (describe : Token → List String → Option (Res String))
    (o : List ObjectField) (indicies : List String) : Option (Res String) :=
  match indicies with
  | [] => some (ObjectDescription (some o))
  | name :: rest => describeFields describe name rest o

/-- The function `describe` of locatable.go. -/
def describe : Nat → Token → List String → NodeCache → Option (Res String)
  | 0, _, _, _ => none
  | fuel + 1, item, indicies, cache =>
    match item with
    | .node (.mk _ (.Object fields)) =>
      describeInObjectWith (fun t i => describe fuel t i cache) fields indicies
    | .node (.mk _ (.Import file)) =>
      match cache.Get file with
      | .error .NodeCacheMissErr => some (.ok "node cache miss")
      | .error err => some (.error (.error err))
      | .ok ne => describe fuel (.node ne.Node) indicies cache
    | t => some (TokenName t)

/-- The function `describeInObject` of locatable.go. -/
def describeInObject (fuel : Nat) (o : List ObjectField)
    (indicies : List String) (cache : NodeCache) : Option (Res String) :=
  describeInObjectWith (fun t i => describe fuel t i cache) o indicies

end locate

namespace locate

open ast astext

/-- Wrap the description computed for a reference into the result of a
handler: `build` makes the `Resolved` value from the description. -/
def withDescription (build : String → Resolved) :
    Option (Res String) → Option (Res Resolved)
  | none => none
  | some (.error e) => some (.error e)
  | some (.ok description) => some (.ok (build description))

/-- The method `handleLocalBind` of locatable.go: the zero `Resolved`. -/
def handleLocalBind (_l : Locatable) (_b : LocalBind) : Res Resolved :=
  .ok { Location := LocationRange.zero, Token := .nil, Description := "" }

/-- The method `handleImport` of locatable.go; `i` is the import node. -/
def handleImport (l : Locatable) (i : Node) : Res Resolved :=
  match TokenName (.node i) with
  | .error e => .error e
  | .ok name => .ok { Location := l.Loc, Token := .nil, Description := name }

/-- The loop of `handleIndex`: `cur` is the node under inspection and
`indices` the names collected so far. -/
def handleIndexLoop (fuel : Nat) (l : Locatable) (cache : NodeCache) :
    Node → List String → Option (Res Resolved)
  | .mk _ (.Index target _ id), indices =>
    match id with
    | none => some (.error (.error .indexWithoutId))
    | some id => handleIndexLoop fuel l cache target (id :: indices)
  | .mk _ (.Var varID), indices =>
    match l.Env.lookup varID with
    | some x =>
      withDescription
        (fun description =>
          { Location := x.Loc, Token := l.Token, Description := description })
        (describe fuel x.Token indices cache)
    | none => some (.error (.error (.notInEnv varID)))
  | .mk _ k, _ => some (.error (.error (.indexTarget k.goType)))

/-- The method `handleIndex` of locatable.go; `i` is the index node. -/
def handleIndex (fuel : Nat) (l : Locatable) (i : Node) (cache : NodeCache) :
    Option (Res Resolved) :=
  handleIndexLoop fuel l cache i []

/-- The method `handleNamedParameter` of locatable.go. -/
def handleNamedParameter (l : Locatable) (p : NamedParameter) : Res Resolved :=
  let description := "(param) " ++ p.Name
  .ok { Location := l.Loc, Token := l.Token, Description := description }

/-- The method `handleRequiredParameter` of locatable.go. -/
def handleRequiredParameter (l : Locatable) (p : RequiredParameter) :
    Res Resolved :=
  let description := "(param) " ++ p.ID
  .ok { Location := l.Loc, Token := l.Token, Description := description }

/-- The function `bindOutput` of locatable.go. -/
def bindOutput (bind : LocalBind) : Res String :=
  match bind.Body with
  | .mk _ (.LiteralString _) => .ok ("(" ++ "string" ++ ") " ++ bind.Variable)
  | .mk _ .DesugaredObject => .ok ("(" ++ "object" ++ ") " ++ bind.Variable)
  | .mk _ (.Function _) => .ok ("(" ++ "function" ++ ") " ++ bind.Variable)
  | .mk _ (.Object fields) => ObjectDescription (some fields)
  | .mk _ k => .ok ("(unknown) " ++ bind.Variable ++ ": " ++ k.goType)

/-- The method `handleDefault` of locatable.go. -/
def handleDefault (l : Locatable) : Res Resolved :=
  match l.Parent with
  | none => .error nilDeref
  | some parent =>
    let name :=
      match parent.Token with
      | .LocalBind t => bindOutput t
      | _ => TokenName l.Token
    match name with
    | .error err => .error err
    | .ok name => .ok { Location := l.Loc, Token := l.Token, Description := name }

/-- The first loop of `handleFunction`: the required parameters. -/
def writeRequired (required : List String) (sig : String) : String :=
  required.enum.foldl
    (fun sig ip =>
      let sig := sig ++ ip.2
      if (ip.1 : Int) ≤ (required.length : Int) - 2 then sig ++ ", " else sig)
    sig

/-- The second loop of `handleFunction`: the optional parameters;
`setRequired` tells whether the first loop ran at least once. -/
def writeOptional (optional : List NamedParameter) (setRequired : Bool)
    (sig : String) : String :=
  optional.enum.foldl
    (fun sig ip =>
      let sig := if setRequired then sig ++ ", " else sig
      let val := TokenValue (.node ip.2.DefaultArg)
      let s := ip.2.Name ++ "=" ++ val
      let sig := sig ++ s
      if (ip.1 : Int) ≤ (optional.length : Int) - 2 then sig ++ ", " else sig)
    sig

/-- The signature text `sig` that the two loops of `handleFunction` build. -/
def functionSignature (p : Parameters) : String :=
  let setRequired := !p.Required.isEmpty
  writeOptional p.Optional setRequired (writeRequired p.Required "")

/-- The method `handleFunction` of locatable.go; `f` holds the parameters of
the function node. -/
def handleFunction (l : Locatable) (f : Parameters) : Res Resolved :=
  let sig := functionSignature f
  match l.Parent with
  | none => .error nilDeref
  | some parent =>
    match parent.Parent with
    | none => .error nilDeref
    | some grandParent =>
      match grandParent.Token with
      | .DesugaredObjectField _ =>
        match TokenName grandParent.Token with
        | .error e => .error e
        | .ok name =>
          .ok { Location := l.Loc, Token := l.Token,
                Description := "(function) " ++ name ++ "(" ++ sig ++ ")" }
      | t => .error (.error (.functionContext t.goType))

/-- The method `handleVar` of locatable.go; `id` is the `Id` of the variable
node. -/
def handleVar (fuel : Nat) (l : Locatable) (id : String) (jPaths : List String)
    (cache : NodeCache) : Option (Res Resolved) :=
  match l.Env.lookup id with
  | some ref =>
    withDescription
      (fun s => { Location := ref.Loc, Token := ref.Token, Description := s })
      (resolvedIdentifier fuel ref.Token jPaths cache)
  | none => some (.error (.error .ErrUnresolvable))

/-- The method `Resolve` of locatable.go; `none` is the nil receiver. -/
def Resolve (fuel : Nat) (l : Option Locatable) (jPaths : List String)
    (cache : NodeCache) : Option (Res Resolved) :=
  match l with
  | none => some (.error (.error .locatableIsNil))
  | some l =>
    match l.Token with
    | .node (.mk _ (.Var id)) => handleVar fuel l id jPaths cache
    | .node (.mk loc (.Index target index id)) =>
      handleIndex fuel l (.mk loc (.Index target index id)) cache
    | .Identifier _ => some (handleDefault l)
    | .IdentifierPtr _ => some (handleDefault l)
    | .node (.mk loc (.Import file)) => some (handleImport l (.mk loc (.Import file)))
    | .LocalBind t => some (handleLocalBind l t)
    | .node (.mk _ (.Function parameters)) => some (handleFunction l parameters)
    | .NamedParameter t => some (handleNamedParameter l t)
    | .RequiredParameter t => some (handleRequiredParameter l t)
    | _ => some (.error (.error .ErrUnresolvable))

end locate

namespace locate

open ast astext

/-- The functions of package `locate` that previsit and
`locate.DesugaredObjectField` call and whose code is not among the sources.
They are parameters of the embedding: nothing is assumed about what they
return. -/
structure Locators where
  fieldRange : String → String → Res LocationRange
  Identifier : String → LocationRange → String → Res LocationRange
  LocalBind : ast.LocalBind → LocationRange → String → Res LocationRange
  NamedParameter : ast.NamedParameter → LocationRange → String → Res LocationRange
  RequiredParameter :
    astext.RequiredParameter → LocationRange → String → Res LocationRange

/-- The function `DesugaredObjectField` of desugared_object.go. -/
def DesugaredObjectField (L : Locators) (field : ast.DesugaredObjectField)
    (parentRange : LocationRange) (source : String) : Res LocationRange :=
  let parentSource := extractRange source parentRange
  match field.Name with
  | .mk _ (.LiteralString value) =>
    match L.fieldRange value parentSource with
    | .error err => .error err
    | .ok fieldLocation =>
      .ok { FileName := parentRange.FileName,
            Begin := { Line := fieldLocation.Begin.Line + (parentRange.Begin.Line - 1),
                       Column := fieldLocation.Begin.Column },
            End := { Line := fieldLocation.End.Line + (parentRange.Begin.Line - 1),
                     Column := fieldLocation.End.Column } }
  | .mk _ k => .error (.error (.desugaredFieldName k.goType))

end locate

namespace lexical

open ast astext locate

/-- The function `isInvalidRange` of hover_visitor.go; in Go `&&` binds
tighter than `||`. -/
def isInvalidRange (r : LocationRange) : Bool :=
  r.Begin.Line == 0 || (r.Begin.Column == 0 && r.End.Line == 0) ||
    r.End.Column == 0

/-- The struct `hoverVisitor` of hover_visitor.go. Of the node visitor it
holds, previsit reads only the source text, kept here as `Source`. -/
structure hoverVisitor where
  Source : String
  loc : Location
  selectedToken : Option Locatable

/-- The function `newHoverVisitor` of hover_visitor.go: no token is selected
yet. -/
def newHoverVisitor (source : String) (loc : Location) : hoverVisitor :=
  { Source := source, loc := loc, selectedToken := none }

/-- The range of the parent, `parent.Loc`; a nil parent panics. -/
def parentLoc (parent : Option Locatable) : Res LocationRange :=
  match parent with
  | none => .error nilDeref
  | some p => .ok p.Loc

/-- The type switch at the head of previsit: the range `r` found for the
token. The default case formats `parent.Token` for its log line before it
returns the error, so a nil parent panics there too. -/
def previsitRange (L : Locators) (hv : hoverVisitor) (token : Token)
    (parent : Option Locatable) : Res LocationRange :=
  match token with
  | .node t => .ok t.loc
  | .DesugaredObjectField t => do
    let p ← parentLoc parent
    locate.DesugaredObjectField L t p hv.Source
  | .Identifier t => do
    let p ← parentLoc parent
    L.Identifier t p hv.Source
  | .LocalBind t => do
    let p ← parentLoc parent
    L.LocalBind t p hv.Source
  | .NamedParameter t => do
    let p ← parentLoc parent
    L.NamedParameter t p hv.Source
  | .RequiredParameter t => do
    let p ← parentLoc parent
    L.RequiredParameter t p hv.Source
  | t =>
    match parent with
    | none => .error nilDeref
    | some _ => .error (.error (.unableToLocate t.goType))

/-- The first part of previsit, up to the construction of the new locatable
`nl`: locate the token, replace an invalid range by the range of the parent,
compute the token name and fill in a missing file name. `TokenName` of
token.go has no error result, so the name computation can end previsit only by
a panic. -/
def previsitLocatable (L : Locators) (hv : hoverVisitor) (token : Token)
    (parent : Option Locatable) (env : Env) : Res Locatable := do
  let r ← previsitRange L hv token parent
  let r ← if isInvalidRange r then parentLoc parent else pure r
  let _name ← TokenName token
  let r ←
    if r.FileName = "" then do
      let p ← parentLoc parent
      pure { r with FileName := p.FileName }
    else pure r
  pure { Token := token, Loc := r, Parent := parent, Env := env }

/-- The last part of previsit: the update of the selected token with the new
locatable `nl`. -/
def selectToken (hv : hoverVisitor) (nl : Locatable) : hoverVisitor :=
  if hv.selectedToken.isNone ∧ inRange hv.loc nl.Loc = true ∧
      nl.Parent.isSome then
    { hv with selectedToken := some nl }
  else
    match hv.selectedToken with
    | some selected =>
      if inRange hv.loc nl.Loc = true ∧
          isRangeSmaller selected.Loc nl.Loc = true then
        { hv with selectedToken := some nl }
      else hv
    | none => hv

/-- The method `previsit` of hover_visitor.go. -/
def previsit (L : Locators) (hv : hoverVisitor) (token : Token)
    (parent : Option Locatable) (env : Env) : Res hoverVisitor :=
  match previsitLocatable L hv token parent env with
  | .error err => .error err
  | .ok nl => .ok (selectToken hv nl)

/-- One call of the pre-visit callback by the tree walker. -/
structure Visit where
  token : Token
  parent : Option Locatable
  env : Env

/-- Modelled from the spec: the tree walker (`NodeVisitor.Visit`) is not among
the sources. Section 4.2: it calls the visitor callback once per node in
pre-order, and an error of the callback aborts the walk and goes to the
caller. The nodes it visits are given as the list `visits`. -/
def Visit.run (L : Locators) : hoverVisitor → List Visit → Res hoverVisitor
  | hv, [] => .ok hv
  | hv, v :: rest =>
    match previsit L hv v.token v.parent v.env with
    | .error err => .error err
    | .ok hv1 => Visit.run L hv1 rest

/-- The method `TokenAtLocation` of hover_visitor.go. -/
def TokenAtLocation (L : Locators) (hv : hoverVisitor) (visits : List Visit) :
    Res (Option Locatable) :=
  match Visit.run L hv visits with
  | .error err => .error err
  | .ok hv1 => .ok hv1.selectedToken

end lexical

namespace locate

open ast

/-- One step `.Id` of an index chain: the range of the index node, its `Index`
expression (nil for a dotted name) and the name. -/
structure IndexStep where
  loc : LocationRange
  Index : Option Node
  Id : String

/-- The node of the index chain `root.n1.n2...nk`, the steps given in source
order: each step is an index node whose target is the chain before it. -/
def indexChain (root : Node) (steps : List IndexStep) : Node :=
  steps.foldl (fun target s => .mk s.loc (.Index target s.Index (some s.Id))) root

end locate

namespace token

open ast

/-- The map type `evalScope` of eval.go, `map[ast.Identifier]ast.Node`, held
as a list with one entry per key. -/
abbrev evalScope := List (String × Node)

/-- The map read `es[k]`. -/
def evalScope.get (es : evalScope) (k : String) : Option Node :=
  es.lookup k

/-- The map write `es[k] = v`: the entry of `k` is replaced. -/
def evalScope.set (es : evalScope) (k : String) (v : Node) : evalScope :=
  (k, v) :: es.filter (fun kv => kv.1 != k)

/-- The method `Clone` of eval.go: every entry of `es` is written into a fresh
map. Go ranges over a map in an unspecified order; with one entry per key
every order gives the same clone. -/
def evalScope.Clone (es : evalScope) : evalScope :=
  es.foldr (fun kv clone => clone.set kv.1 kv.2) []

/-- The struct `evaluator` of eval.go. Go compares `n == e.until` by pointer
identity. The method `eval` only follows `Body` pointers from the root, so the
nodes it compares with `until` are the nodes at depth 0, 1, 2, ... of that
chain, each a different allocation; `until` is therefore held as the depth of
the node it points to, and `none` when it points to no node of the chain; the
field is spelled `until_` because `until` is a keyword of Lean. `scope` is
`none` while the map is still nil. -/
structure evaluator where
  until_ : Option Nat
  scope : Option evalScope

/-- The scope `s` that the `*ast.Local` case of `eval` builds: a clone of the
parent scope with every bind of the local written into it in order. -/
def localScope (parentScope : evalScope) (binds : List LocalBind) : evalScope :=
  binds.foldl (fun s bind => s.set bind.Variable bind.Body) parentScope.Clone

/-- The method `evaluator.eval` of eval.go; `depth` is the depth of `n` below
the root and the result is the evaluator after the call. -/
def evaluator.eval (e : evaluator) : Node → Nat → evalScope → Res evaluator
  | .mk _ (.Local binds body), depth, parentScope =>
    let s := localScope parentScope binds
    match evaluator.eval e body (depth + 1) s with
    | .error err => .error err
    | .ok e1 =>
      .ok (if e1.until_ = some depth then { e1 with scope := some parentScope } else e1)
  | .mk _ .PartialNode, depth, parentScope =>
    .ok (if e.until_ = some depth then { e with scope := some parentScope } else e)
  | .mk _ (.Var _), depth, parentScope =>
    .ok (if e.until_ = some depth then { e with scope := some parentScope } else e)
  | .mk _ k, _, _ => .error (.panic ("unexpected node " ++ k.goType))

/-- The function `eval` of eval.go; `node` is the root and the result is the
scope left in the evaluator (`none` is the nil map). -/
def eval (node : Node) (until_ : Option Nat) : Res (Option evalScope) :=
  let e : evaluator := { until_ := until_, scope := none }
  let s : evalScope := []
  match evaluator.eval e node 0 s with
  | .error err => .error err
  | .ok e1 => .ok e1.scope

/-- The chain of nested locals `L0, L1, ...` (each the body of the one before,
given by its range and its binds) that ends in the node `terminal`. -/
def localChain (locals : List (LocationRange × List LocalBind))
    (terminal : Node) : Node :=
  locals.foldr (fun l body => .mk l.1 (.Local l.2 body)) terminal

end token

/-- The environment the words of the specification describe for a list of
bindings given from the outermost inward: an identifier maps to the bound
expression of its last (nearest) binding, and an identifier that is not bound
is absent. -/
def nearestBinding (binds : List ast.LocalBind) (x : String) : Option ast.Node :=
  (binds.reverse.find? (fun b => b.Variable == x)).map ast.LocalBind.Body

/-- The positions of the characters of a text in the 1-based coordinates of the
tree: the first character of every line is at column 1 and a newline ends the
line it is on. `line` and `col` are the position of the first character. -/
def treePositions : List Char → Int → Int → List (Char × ast.Location)
  | [], _, _ => []
  | c :: cs, line, col =>
    (c, ⟨line, col⟩) ::
      (if c = '\n' then treePositions cs (line + 1) 1
       else treePositions cs line (col + 1))

/-- The text the specification describes for `extractRange`: the characters
whose tree position lies inside `r`, in source order. -/
def extractRangeByTreePosition (source : String) (r : ast.LocationRange) : String :=
  String.mk (((treePositions source.toList 1 1).filter
    (fun cp => locate.inRange cp.2 r)).map Prod.fst)

/-- The tokens for which `Resolve` has a case of its own. -/
def hasDispatchRule : Token → Bool
  | .node (.mk _ (.Var _)) => true
  | .node (.mk _ (.Index _ _ _)) => true
  | .Identifier _ => true
  | .IdentifierPtr _ => true
  | .node (.mk _ (.Import _)) => true
  | .LocalBind _ => true
  | .node (.mk _ (.Function _)) => true
  | .NamedParameter _ => true
  | .RequiredParameter _ => true
  | _ => false

/-- The visibility values the specification knows: inherited, hidden and
forced-visible. -/
def knownVisibility (hide : Int) : Prop :=
  hide = ast.ObjectFieldInherit ∨ hide = ast.ObjectFieldHidden ∨
    hide = ast.ObjectFieldVisible

instance (hide : Int) : Decidable (knownVisibility hide) := by
  unfold knownVisibility
  infer_instance

/-- The marker the specification gives to a visibility: one colon for an
inherited field, two for a hidden one, three for a forced-visible one. -/
def visibilityMarker (hide : Int) : String :=
  if hide = ast.ObjectFieldInherit then ":"
  else if hide = ast.ObjectFieldHidden then "::"
  else ":::"

/-- The name of a field in the words of the specification: the identifier the
field is written with, or else the text of the string literal that names it
(`my-field` for the field `"my-field": 1`). A field with neither, such as a
computed key, has no name. -/
def fieldName (f : ast.ObjectField) : Option String :=
  match f with
  | .mk _ (some id) _ _ => some id
  | .mk _ none (some (.mk _ (.LiteralString value))) _ => some value
  | .mk _ none _ _ => none

/-- The lines the specification gives for the fields of an object, in
declaration order: two blanks, `(field) `, the name, the marker, a comma and a
newline. -/
def fieldLines : List ast.ObjectField → String
  | [] => ""
  | f :: fs =>
    "  (field) " ++ (fieldName f).getD "" ++ visibilityMarker f.Hide ++ ",\n" ++
      fieldLines fs

/-- The description the specification gives for an object: the opening text,
a newline when there is a field, the field lines and the closing brace. -/
def objectText (fields : List ast.ObjectField) : String :=
  "(object) \x7b" ++ (if fields.isEmpty then "" else "\n") ++ fieldLines fields ++ "\x7d"

/-! ## Concrete programs used to evaluate the code -/

namespace Example

open ast astext locate lexical

/-- A range on line 1 of `main.jsonnet`, from column `b` to column `e`. -/
def span (b e : Int) : LocationRange := ⟨"main.jsonnet", ⟨1, b⟩, ⟨1, e⟩⟩

/-- Locators that never find anything; pointer nodes do not use them. -/
def noLocators : Locators :=
  { fieldRange := fun _ _ => .error (.error (.external "not found")),
    Identifier := fun _ _ _ => .error (.error (.external "not found")),
    LocalBind := fun _ _ _ => .error (.error (.external "not found")),
    NamedParameter := fun _ _ _ => .error (.error (.external "not found")),
    RequiredParameter := fun _ _ _ => .error (.error (.external "not found")) }

/-- A cache in which every key is a miss. -/
def missCache : NodeCache := { Get := fun _ => .error .NodeCacheMissErr }

/-- A cache whose loads all fail with an error that is not a miss. -/
def brokenCache : NodeCache := { Get := fun _ => .error (.external "parse error") }

/-- The root of a walk over `[[1, 2]]`: the outer array, columns 1 to 8. -/
def outerArray : Locatable :=
  { Token := .node (.mk (span 1 8) .Array), Loc := span 1 8, Parent := none, Env := [] }

/-- The inner array, columns 2 to 7, child of the outer array. -/
def innerArray : Locatable :=
  { Token := .node (.mk (span 2 7) .Array), Loc := span 2 7,
    Parent := some outerArray, Env := [] }

/-- The number `1`, columns 3 to 3, child of the inner array. -/
def numberOne : Locatable :=
  { Token := .node (.mk (span 3 3) (.LiteralNumber "1")), Loc := span 3 3,
    Parent := some innerArray, Env := [] }

/-- The pre-order walk over `[[1, 2]]` up to the number `1`. -/
def arrayVisits : List Visit :=
  [ { token := outerArray.Token, parent := none, env := [] },
    { token := innerArray.Token, parent := some outerArray, env := [] },
    { token := numberOne.Token, parent := some innerArray, env := [] } ]

/-- The string literal bound by `local x = "hello"; x`, columns 11 to 17. -/
def helloBinding : Locatable :=
  { Token := .node (.mk (span 11 17) (.LiteralString "hello")), Loc := span 11 17,
    Parent := none, Env := [] }

/-- The reference `x` in `local x = "hello"; x`, column 20. -/
def xReference : Locatable :=
  { Token := .node (.mk (span 20 20) (.Var "x")), Loc := span 20 20,
    Parent := none, Env := [("x", helloBinding)] }

/-- The field `b: 1` of the nested object of `{ a: { b: 1 } }`. -/
def fieldB : ObjectField :=
  .mk ObjectFieldInherit (some "b") none (.mk (span 21 21) (.LiteralNumber "1"))

/-- The field `a: { b: 1 }`. -/
def fieldA : ObjectField :=
  .mk ObjectFieldInherit (some "a") none (.mk (span 16 23) (.Object [fieldB]))

/-- The object bound by `local o = { a: { b: 1 } }; o.a.b`, columns 11 to
25. -/
def oBinding : Locatable :=
  { Token := .node (.mk (span 11 25) (.Object [fieldA])), Loc := span 11 25,
    Parent := none, Env := [] }

/-- The range of the definition of field `b` inside the nested object. -/
def fieldBRange : LocationRange := span 18 21

/-- The range of the definition of field `a`. -/
def fieldARange : LocationRange := span 13 23

/-- The node `o.a.b`, columns 28 to 32. -/
def oabNode : Node :=
  .mk (span 28 32)
    (.Index (.mk (span 28 30) (.Index (.mk (span 28 28) (.Var "o")) none (some "a")))
      none (some "b"))

/-- The reference `o.a.b` with `o` bound in its environment. -/
def oabReference : Locatable :=
  { Token := .node oabNode, Loc := span 28 32, Parent := none,
    Env := [("o", oBinding)] }

/-- The node `o.missing`. -/
def oMissingNode : Node :=
  .mk (span 28 36) (.Index (.mk (span 28 28) (.Var "o")) none (some "missing"))

/-- The reference `o.missing` with `o` bound to `{ a: { b: 1 } }`. -/
def oMissingReference : Locatable :=
  { Token := .node oMissingNode, Loc := span 28 36, Parent := none,
    Env := [("o", oBinding)] }

/-- The import bound by `local m = import "x.ext"; m.field`. -/
def mBinding : Locatable :=
  { Token := .node (.mk (span 11 24) (.Import "x.ext")), Loc := span 11 24,
    Parent := none, Env := [] }

/-- The reference `m` to that import. -/
def mReference : Locatable :=
  { Token := .node (.mk (span 27 27) (.Var "m")), Loc := span 27 27,
    Parent := none, Env := [("m", mBinding)] }

/-- The node `m.field`. -/
def mFieldNode : Node :=
  .mk (span 27 33) (.Index (.mk (span 27 27) (.Var "m")) none (some "field"))

/-- The reference `m.field` to a field of that import. -/
def mFieldReference : Locatable :=
  { Token := .node mFieldNode, Loc := span 27 33, Parent := none,
    Env := [("m", mBinding)] }

/-- The object field `f` of `{ f: function(a, b, c=3) a }` as the walker hands
it out. -/
def fieldF : Locatable :=
  { Token := .DesugaredObjectField
      { Hide := ObjectFieldInherit, Name := .mk (span 3 3) (.LiteralString "f"),
        Body := .mk (span 6 27) (.Function (.mk ["a", "b"]
          [.mk "c" (.mk (span 21 21) (.LiteralNumber "3"))])) },
    Loc := span 3 3, Parent := none, Env := [] }

/-- The node between the field and its function. -/
def fieldFBody : Locatable :=
  { Token := .node (.mk (span 6 27) (.Local [] (.mk (span 6 27) .Self))),
    Loc := span 6 27, Parent := some fieldF, Env := [] }

/-- The parameters of `function(a, b, c=3)`. -/
def abcParameters : Parameters :=
  .mk ["a", "b"] [.mk "c" (.mk (span 21 21) (.LiteralNumber "3"))]

/-- The function node `function(a, b, c=3) a` inside field `f`. -/
def functionInF : Locatable :=
  { Token := .node (.mk (span 6 27) (.Function abcParameters)), Loc := span 6 27,
    Parent := some fieldFBody, Env := [] }

/-- The parameters of `function(a, b=1, c=2)`: one required parameter and two
optional ones. -/
def twoOptionalParameters : Parameters :=
  .mk ["a"] [.mk "b" (.mk (span 18 18) (.LiteralNumber "1")),
    .mk "c" (.mk (span 23 23) (.LiteralNumber "2"))]

end Example

namespace Example

open ast astext locate lexical

/-- The function node of `function(a) a` at the root of a file: it has no
parent. -/
def functionAtRoot : Locatable :=
  { Token := .node (.mk (span 1 13) (.Function (.mk ["a"] []))), Loc := span 1 13,
    Parent := none, Env := [] }

/-- The root array of `[function(a) a]`. -/
def rootArray : Locatable :=
  { Token := .node (.mk (span 1 15) .Array), Loc := span 1 15, Parent := none,
    Env := [] }

/-- The function node of `[function(a) a]`: its parent is the root, which has
no parent. -/
def functionInArray : Locatable :=
  { Token := .node (.mk (span 2 14) (.Function (.mk ["a"] []))), Loc := span 2 14,
    Parent := some rootArray, Env := [] }

/-- A range whose begin column is the unset value 0 and whose other
coordinates are set. -/
def zeroBeginColumn : LocationRange := ⟨"main.jsonnet", ⟨1, 0⟩, ⟨1, 5⟩⟩

/-- A range whose end line is the unset value 0 and whose other coordinates
are set. -/
def zeroEndLine : LocationRange := ⟨"main.jsonnet", ⟨1, 2⟩, ⟨0, 5⟩⟩

/-- A node located at the same range as the inner array of `[[1, 2]]`. -/
def sameRangeNode : Locatable :=
  { Token := .node (.mk (span 2 7) .Self), Loc := span 2 7,
    Parent := some innerArray, Env := [] }

/-- A visitor with the cursor on column 3 that has selected the inner array. -/
def innerSelected : hoverVisitor :=
  { Source := "[[1, 2]]", loc := ⟨1, 3⟩, selectedToken := some innerArray }

end Example

namespace Example

open ast astext locate lexical

/-- The number literal `n` at column `c`. -/
def number (n : String) (c : Int) : Node := .mk (span c c) (.LiteralNumber n)

/-- The locals of `local x = 1; local y = 2, x = 3; x`, from the outermost
inward. -/
def nestedLocals : List (LocationRange × List LocalBind) :=
  [ (span 1 34, [.mk "x" (number "1" 11)]),
    (span 14 34, [.mk "y" (number "2" 24), .mk "x" (number "3" 31)]) ]

/-- The reference `x` that ends `local x = 1; local y = 2, x = 3; x`. -/
def nestedLocalsBody : Node := .mk (span 34 34) (.Var "x")

/-- The node `super["a"]` bound by `local x = super["a"]`: a super index without
an identifier. -/
def superBinding : Locatable :=
  { Token := .node (.mk (span 11 20) (.SuperIndex none)), Loc := span 11 20,
    Parent := none, Env := [] }

/-- A reference `x` to that binding. -/
def superReference : Locatable :=
  { Token := .node (.mk (span 23 23) (.Var "x")), Loc := span 23 23,
    Parent := none, Env := [("x", superBinding)] }

/-- The fields of `{ a: 1, "my-field":: 2, c::: 3 }`; the second field is named
by a string literal. -/
def threeFields : List ObjectField :=
  [ .mk ObjectFieldInherit (some "a") none (number "1" 6),
    .mk ObjectFieldHidden none (some (.mk (span 9 18) (.LiteralString "my-field")))
      (number "2" 22),
    .mk ObjectFieldVisible (some "c") none (number "3" 30) ]

/-- The fields of `{ a: 1 }`. -/
def oneField : List ObjectField :=
  [ .mk ObjectFieldInherit (some "a") none (number "1" 6) ]

/-- The fields of `{ a: super["x"] }`: the value of `a` is a super index
without an identifier. -/
def superField : List ObjectField :=
  [ .mk ObjectFieldInherit (some "a") none (.mk (span 6 15) (.SuperIndex none)) ]

/-- A field list whose second field has the visibility value 7. -/
def badVisibility : List ObjectField :=
  [ .mk ObjectFieldInherit (some "a") none (number "1" 6),
    .mk 7 (some "b") none (number "2" 13) ]

end Example

/-! ## Ranges: containment and nesting -/

section RangeLemmas

open ast locate

theorem lexLe_refl (a : Location) : lexLe a a := by
  unfold lexLe
  omega

theorem lexLe_trans {a b c : Location} (hab : lexLe a b) (hbc : lexLe b c) :
    lexLe a c := by
  unfold lexLe at *
  omega

theorem lexLe_antisymm {a b : Location} (hab : lexLe a b) (hba : lexLe b a) :
    a = b := by
  unfold lexLe at *
  cases a
  cases b
  simp only [Location.mk.injEq] at *
  omega

theorem beforeRangeOrEqual_iff (l : Location) (r : LocationRange) :
    beforeRangeOrEqual l r = true ↔ lexLe l r.Begin := by
  simp only [beforeRangeOrEqual, lexLe]
  split_ifs <;> simp <;> omega

theorem afterRangeOrEqual_iff (l : Location) (lr : LocationRange) :
    afterRangeOrEqual l lr = true ↔ lexLe lr.End l := by
  simp only [afterRangeOrEqual, lexLe]
  split_ifs <;> simp <;> omega

theorem isRangeSmaller_iff (r1 r2 : LocationRange) :
    isRangeSmaller r1 r2 = true ↔
      lexLe r1.Begin r2.Begin ∧ lexLe r2.End r1.End := by
  simp only [isRangeSmaller, Bool.and_eq_true, beforeRangeOrEqual_iff,
    afterRangeOrEqual_iff]

theorem isRangeSmaller_rfl (r : LocationRange) : isRangeSmaller r r = true :=
  (isRangeSmaller_iff r r).2 ⟨lexLe_refl _, lexLe_refl _⟩

theorem isRangeSmaller_chain {r1 r2 r3 : LocationRange}
    (h12 : isRangeSmaller r1 r2 = true) (h23 : isRangeSmaller r2 r3 = true) :
    isRangeSmaller r1 r3 = true := by
  rw [isRangeSmaller_iff] at *
  exact ⟨lexLe_trans h12.1 h23.1, lexLe_trans h23.2 h12.2⟩

theorem isRangeSmaller_coords {r1 r2 : LocationRange}
    (h12 : isRangeSmaller r1 r2 = true) (h21 : isRangeSmaller r2 r1 = true) :
    r1.Begin = r2.Begin ∧ r1.End = r2.End := by
  rw [isRangeSmaller_iff] at *
  exact ⟨lexLe_antisymm h12.1 h21.1, lexLe_antisymm h21.2 h12.2⟩

end RangeLemmas

/-- C3: `inRange l lr` holds exactly when `lr.Begin ≤ l ≤ lr.End` in the
lexicographic order on (line, column), both bounds included; this covers
single-line and multi-line ranges, interior lines, the begin line and the end
line alike. -/
theorem locate.inRange_iff_between (l : ast.Location) (lr : ast.LocationRange) :
    locate.inRange l lr = true ↔ lexLe lr.Begin l ∧ lexLe l lr.End := by
  simp only [locate.inRange, lexLe]
  split_ifs <;> simp <;> omega

/-- C4: if `isRangeSmaller A B` and `isRangeSmaller B A` both hold, then `A`
and `B` have the same begin and the same end position; the hypothesis that the
ranges are valid is not needed. The test reads coordinates only: changing the
file names of the two ranges never changes its result. -/
theorem locate.isRangeSmaller_antisymm (A B : ast.LocationRange)
    (hAB : locate.isRangeSmaller A B = true)
    (hBA : locate.isRangeSmaller B A = true) :
    (A.Begin = B.Begin ∧ A.End = B.End) ∧
      ∀ f g : String,
        locate.isRangeSmaller { A with FileName := f } { B with FileName := g } =
          locate.isRangeSmaller A B :=
  ⟨isRangeSmaller_coords hAB hBA, fun _ _ => rfl⟩

/-- C4 at two ranges that differ in the file name only. -/
theorem locate.isRangeSmaller_antisymm_witness :
    ((⟨"a.jsonnet", ⟨1, 2⟩, ⟨3, 4⟩⟩ : ast.LocationRange).Begin =
        (⟨"b.jsonnet", ⟨1, 2⟩, ⟨3, 4⟩⟩ : ast.LocationRange).Begin ∧
      (⟨"a.jsonnet", ⟨1, 2⟩, ⟨3, 4⟩⟩ : ast.LocationRange).End =
        (⟨"b.jsonnet", ⟨1, 2⟩, ⟨3, 4⟩⟩ : ast.LocationRange).End) ∧
      ∀ f g : String,
        locate.isRangeSmaller
            { (⟨"a.jsonnet", ⟨1, 2⟩, ⟨3, 4⟩⟩ : ast.LocationRange) with FileName := f }
            { (⟨"b.jsonnet", ⟨1, 2⟩, ⟨3, 4⟩⟩ : ast.LocationRange) with FileName := g } =
          locate.isRangeSmaller ⟨"a.jsonnet", ⟨1, 2⟩, ⟨3, 4⟩⟩
            ⟨"b.jsonnet", ⟨1, 2⟩, ⟨3, 4⟩⟩ :=
  locate.isRangeSmaller_antisymm ⟨"a.jsonnet", ⟨1, 2⟩, ⟨3, 4⟩⟩
    ⟨"b.jsonnet", ⟨1, 2⟩, ⟨3, 4⟩⟩ (by decide) (by decide)

/-! ## The position query -/

section HoverLemmas

open ast locate lexical

theorem selectToken_loc (hv : hoverVisitor) (nl : Locatable) :
    (selectToken hv nl).loc = hv.loc := by
  unfold selectToken
  split_ifs
  · rfl
  · split
    · split_ifs <;> rfl
    · rfl

theorem selectToken_Source (hv : hoverVisitor) (nl : Locatable) :
    (selectToken hv nl).Source = hv.Source := by
  unfold selectToken
  split_ifs
  · rfl
  · split
    · split_ifs <;> rfl
    · rfl

theorem selectToken_of_none {hv : hoverVisitor} (nl : Locatable)
    (h : hv.selectedToken = none) :
    (selectToken hv nl).selectedToken =
      if inRange hv.loc nl.Loc = true ∧ nl.Parent.isSome then some nl
      else none := by
  unfold selectToken
  simp only [h, Option.isNone_none, true_and]
  split_ifs <;> simp_all

theorem selectToken_of_some {hv : hoverVisitor} (nl : Locatable) {T : Locatable}
    (h : hv.selectedToken = some T) :
    (selectToken hv nl).selectedToken =
      if inRange hv.loc nl.Loc = true ∧ isRangeSmaller T.Loc nl.Loc = true then
        some nl
      else some T := by
  unfold selectToken
  simp only [h, Option.isNone_some, Bool.false_eq_true, false_and, if_false]
  split_ifs <;> simp_all

theorem previsitLocatable_congr (L : Locators) {hv hv1 : hoverVisitor}
    (h : hv1.Source = hv.Source) (token : Token) (parent : Option Locatable)
    (env : Env) :
    previsitLocatable L hv1 token parent env =
      previsitLocatable L hv token parent env := by
  unfold previsitLocatable previsitRange
  rw [h]

theorem previsit_ok {L : Locators} {hv hv1 : hoverVisitor} {v : Visit}
    (h : previsit L hv v.token v.parent v.env = .ok hv1) :
    ∃ nl, previsitLocatable L hv v.token v.parent v.env = .ok nl ∧
      hv1 = selectToken hv nl := by
  unfold previsit at h
  split at h
  · cases h
  · rename_i nl hnl
    cases h
    exact ⟨nl, hnl, rfl⟩

theorem run_cons_ok {L : Locators} {hv hv2 : hoverVisitor} {v : Visit}
    {rest : List Visit} (h : Visit.run L hv (v :: rest) = .ok hv2) :
    ∃ nl, previsitLocatable L hv v.token v.parent v.env = .ok nl ∧
      Visit.run L (selectToken hv nl) rest = .ok hv2 := by
  unfold Visit.run at h
  split at h
  · cases h
  · rename_i hv1 h1
    obtain ⟨nl, hnl, rfl⟩ := previsit_ok h1
    exact ⟨nl, hnl, h⟩

/-- Once a token is selected, the walk keeps a selected token, its range is
nested in the earlier one, and it contains the cursor if the earlier one did. -/
theorem run_selected_chain (L : Locators) :
    ∀ (visits : List Visit) (hv hv2 : hoverVisitor) (T : Locatable),
      Visit.run L hv visits = .ok hv2 → hv.selectedToken = some T →
      ∃ S, hv2.selectedToken = some S ∧
        isRangeSmaller T.Loc S.Loc = true ∧
        (inRange hv.loc T.Loc = true → inRange hv.loc S.Loc = true) := by
  intro visits
  induction visits with
  | nil =>
    intro hv hv2 T h hT
    simp only [Visit.run, Except.ok.injEq] at h
    subst h
    exact ⟨T, hT, isRangeSmaller_rfl _, id⟩
  | cons v rest ih =>
    intro hv hv2 T h hT
    obtain ⟨nl, -, hrest⟩ := run_cons_ok h
    have hsel := selectToken_of_some nl hT
    by_cases hc : inRange hv.loc nl.Loc = true ∧
        isRangeSmaller T.Loc nl.Loc = true
    · rw [if_pos hc] at hsel
      obtain ⟨S, hS, hnest, hin⟩ := ih _ _ nl hrest hsel
      rw [selectToken_loc] at hin
      exact ⟨S, hS, isRangeSmaller_chain hc.2 hnest, fun _ => hin hc.1⟩
    · rw [if_neg hc] at hsel
      obtain ⟨S, hS, hnest, hin⟩ := ih _ _ T hrest hsel
      rw [selectToken_loc] at hin
      exact ⟨S, hS, hnest, hin⟩

/-- A visited node that has a parent, contains the cursor and is nested in the
finally selected range has the finally selected range nested in it. -/
theorem run_innermost (L : Locators) :
    ∀ (visits : List Visit) (hv hv2 : hoverVisitor) (S : Locatable),
      Visit.run L hv visits = .ok hv2 → hv2.selectedToken = some S →
      ∀ v ∈ visits, ∀ nl : Locatable,
        previsitLocatable L hv v.token v.parent v.env = .ok nl →
        nl.Parent ≠ none → inRange hv.loc nl.Loc = true →
        isRangeSmaller S.Loc nl.Loc = true →
        isRangeSmaller nl.Loc S.Loc = true := by
  intro visits
  induction visits with
  | nil =>
    intro hv hv2 S _ _ v hv
    cases hv
  | cons v0 rest ih =>
    intro hv hv2 S h hS v hmem nl hnl hpar hin hnest
    obtain ⟨nl0, hnl0, hrest⟩ := run_cons_ok h
    rcases List.mem_cons.1 hmem with rfl | hmem
    · -- the node visited first
      rw [hnl0] at hnl
      cases hnl
      cases hsel : hv.selectedToken with
      | none =>
        have hs := selectToken_of_none nl hsel
        have hp : nl.Parent.isSome = true := by
          cases hq : nl.Parent with
          | none => exact absurd hq hpar
          | some _ => rfl
        rw [if_pos ⟨hin, hp⟩] at hs
        obtain ⟨S1, hS1, hn, -⟩ := run_selected_chain L _ _ _ nl hrest hs
        rw [hS] at hS1
        cases hS1
        exact hn
      | some T =>
        have hs := selectToken_of_some nl hsel
        by_cases hc : isRangeSmaller T.Loc nl.Loc = true
        · rw [if_pos ⟨hin, hc⟩] at hs
          obtain ⟨S1, hS1, hn, -⟩ := run_selected_chain L _ _ _ nl hrest hs
          rw [hS] at hS1
          cases hS1
          exact hn
        · rw [if_neg (fun hx => hc hx.2)] at hs
          obtain ⟨S1, hS1, hn, -⟩ := run_selected_chain L _ _ _ T hrest hs
          rw [hS] at hS1
          cases hS1
          exact absurd (isRangeSmaller_chain hn hnest) hc
    · -- a node visited later
      have hcongr := previsitLocatable_congr L (selectToken_Source hv nl0)
        v.token v.parent v.env
      rw [← hcongr] at hnl
      have := ih _ _ S hrest hS v hmem nl hnl hpar
      rw [selectToken_loc] at this
      exact this hin hnest

end HoverLemmas

section HoverSelected

open ast locate lexical

theorem selectToken_inRange {hv : hoverVisitor} (nl : Locatable)
    (h : ∀ T, hv.selectedToken = some T → inRange hv.loc T.Loc = true) :
    ∀ S, (selectToken hv nl).selectedToken = some S →
      inRange hv.loc S.Loc = true := by
  intro S hS
  cases hsel : hv.selectedToken with
  | none =>
    rw [selectToken_of_none nl hsel] at hS
    split_ifs at hS with hc
    cases hS
    exact hc.1
  | some T =>
    rw [selectToken_of_some nl hsel] at hS
    split_ifs at hS with hc
    · cases hS
      exact hc.1
    · cases hS
      exact h _ hsel

theorem selectToken_isSome (hv : hoverVisitor) (nl : Locatable) :
    (selectToken hv nl).selectedToken.isSome = true ↔
      hv.selectedToken.isSome = true ∨
        (nl.Parent ≠ none ∧ inRange hv.loc nl.Loc = true) := by
  cases hsel : hv.selectedToken with
  | none =>
    rw [selectToken_of_none nl hsel]
    cases hp : nl.Parent <;> by_cases hin : inRange hv.loc nl.Loc = true <;>
      simp [hin]
  | some T =>
    rw [selectToken_of_some nl hsel]
    split_ifs <;> simp

theorem run_selected_inRange (L : Locators) :
    ∀ (visits : List Visit) (hv hv2 : hoverVisitor),
      Visit.run L hv visits = .ok hv2 →
      (∀ T, hv.selectedToken = some T → inRange hv.loc T.Loc = true) →
      ∀ S, hv2.selectedToken = some S → inRange hv.loc S.Loc = true := by
  intro visits
  induction visits with
  | nil =>
    intro hv hv2 h hT
    simp only [Visit.run, Except.ok.injEq] at h
    subst h
    exact hT
  | cons v rest ih =>
    intro hv hv2 h hT
    obtain ⟨nl, -, hrest⟩ := run_cons_ok h
    have := ih _ _ hrest
    rw [selectToken_loc] at this
    exact this (selectToken_inRange nl hT)

theorem run_selected_isSome (L : Locators) :
    ∀ (visits : List Visit) (hv hv2 : hoverVisitor),
      Visit.run L hv visits = .ok hv2 →
      (hv2.selectedToken.isSome = true ↔
        hv.selectedToken.isSome = true ∨
          ∃ v ∈ visits, ∃ nl : Locatable,
            previsitLocatable L hv v.token v.parent v.env = .ok nl ∧
              nl.Parent ≠ none ∧ inRange hv.loc nl.Loc = true) := by
  intro visits
  induction visits with
  | nil =>
    intro hv hv2 h
    simp only [Visit.run, Except.ok.injEq] at h
    subst h
    simp
  | cons v0 rest ih =>
    intro hv hv2 h
    obtain ⟨nl0, hnl0, hrest⟩ := run_cons_ok h
    rw [ih _ _ hrest, selectToken_isSome, selectToken_loc]
    have hcongr := fun (v : Visit) =>
      previsitLocatable_congr L (selectToken_Source hv nl0) v.token v.parent v.env
    simp only [hcongr]
    constructor
    · rintro ((h1 | h2) | ⟨v, hv, nl, hnl, hp, hin⟩)
      · exact Or.inl h1
      · exact Or.inr ⟨v0, List.mem_cons_self _ _, nl0, hnl0, h2⟩
      · exact Or.inr ⟨v, List.mem_cons_of_mem _ hv, nl, hnl, hp, hin⟩
    · rintro (h1 | ⟨v, hv, nl, hnl, hp, hin⟩)
      · exact Or.inl (Or.inl h1)
      · rcases List.mem_cons.1 hv with rfl | hv
        · rw [hnl0] at hnl
          cases hnl
          exact Or.inl (Or.inr ⟨hp, hin⟩)
        · exact Or.inr ⟨v, hv, nl, hnl, hp, hin⟩

end HoverSelected

/-- C1: take any walk (a list of visits, each of which previsit locates without
error) that ends with the selected node `S`. Then no visited node `nl` that has
a parent and whose range contains the cursor position is strictly nested in
the range of `S`, that is nested per `isRangeSmaller` without having the same
begin and end as `S`. The walk may start from any visitor state. -/
theorem lexical.TokenAtLocation_innermost (L : locate.Locators)
    (hv : lexical.hoverVisitor) (visits : List lexical.Visit)
    (S : locate.Locatable)
    (hwalk : lexical.TokenAtLocation L hv visits = .ok (some S))
    (v : lexical.Visit) (hmem : v ∈ visits) (nl : locate.Locatable)
    (hnl : lexical.previsitLocatable L hv v.token v.parent v.env = .ok nl)
    (hparent : nl.Parent ≠ none)
    (hin : locate.inRange hv.loc nl.Loc = true) :
    ¬ (locate.isRangeSmaller S.Loc nl.Loc = true ∧
        ¬ (nl.Loc.Begin = S.Loc.Begin ∧ nl.Loc.End = S.Loc.End)) := by
  rintro ⟨hnest, hne⟩
  unfold lexical.TokenAtLocation at hwalk
  split at hwalk
  · cases hwalk
  · rename_i hv2 hrun
    simp only [Except.ok.injEq] at hwalk
    have hback := run_innermost L visits hv hv2 S hrun hwalk v hmem nl hnl
      hparent hin hnest
    exact hne (isRangeSmaller_coords hback hnest)

/-- C2: after a walk that starts from a fresh visitor and locates every visited
node, a token is selected if and only if some visited node that has a parent
has a range containing the cursor position; a selected token has a range that
contains the position; and nothing is selected when no visited node contains
it. -/
theorem lexical.TokenAtLocation_isSome_iff (L : locate.Locators)
    (source : String) (P : ast.Location) (visits : List lexical.Visit)
    (selected : Option locate.Locatable)
    (hwalk : lexical.TokenAtLocation L (lexical.newHoverVisitor source P) visits =
      .ok selected) :
    (selected.isSome = true ↔
      ∃ v ∈ visits, ∃ nl : locate.Locatable,
        lexical.previsitLocatable L (lexical.newHoverVisitor source P)
            v.token v.parent v.env = .ok nl ∧
          nl.Parent ≠ none ∧ locate.inRange P nl.Loc = true) ∧
    (∀ S, selected = some S → locate.inRange P S.Loc = true) ∧
    ((∀ v ∈ visits, ∀ nl : locate.Locatable,
        lexical.previsitLocatable L (lexical.newHoverVisitor source P)
            v.token v.parent v.env = .ok nl →
          locate.inRange P nl.Loc = false) → selected = none) := by
  unfold lexical.TokenAtLocation at hwalk
  split at hwalk
  · cases hwalk
  · rename_i hv2 hrun
    simp only [Except.ok.injEq] at hwalk
    subst hwalk
    have hiff := run_selected_isSome L visits _ hv2 hrun
    have hin := run_selected_inRange L visits _ hv2 hrun
    simp only [lexical.newHoverVisitor, Option.isSome_none, Bool.false_eq_true,
      false_or] at hiff
    refine ⟨hiff, ?_, ?_⟩
    · exact hin (by simp [lexical.newHoverVisitor])
    · intro hall
      cases hs : hv2.selectedToken with
      | none => rfl
      | some S =>
        have : hv2.selectedToken.isSome = true := by simp [hs]
        obtain ⟨v, hv, nl, hnl, -, hc⟩ := hiff.1 this
        have := hall v hv nl hnl
        simp [lexical.newHoverVisitor] at this
        rw [this] at hc
        cases hc

/-- C1 on the walk over `[[1, 2]]` with the cursor on the `1`: the walk selects
the number, and the inner array, which has a parent and contains the cursor,
is not strictly nested in the range of the number. -/
theorem lexical.TokenAtLocation_innermost_witness :
    lexical.TokenAtLocation Example.noLocators
        (lexical.newHoverVisitor "[[1, 2]]" ⟨1, 3⟩) Example.arrayVisits =
      .ok (some Example.numberOne) ∧
    locate.inRange ⟨1, 3⟩ Example.innerArray.Loc = true ∧
    ¬ (locate.isRangeSmaller Example.numberOne.Loc Example.innerArray.Loc = true ∧
        ¬ (Example.innerArray.Loc.Begin = Example.numberOne.Loc.Begin ∧
            Example.innerArray.Loc.End = Example.numberOne.Loc.End)) :=
  ⟨rfl, by decide,
    lexical.TokenAtLocation_innermost Example.noLocators
      (lexical.newHoverVisitor "[[1, 2]]" ⟨1, 3⟩) Example.arrayVisits
      Example.numberOne rfl
      { token := Example.innerArray.Token, parent := some Example.outerArray, env := [] }
      (List.mem_cons_of_mem _ (List.mem_cons_self _ _))
      Example.innerArray rfl (fun h => Option.noConfusion h) (by decide)⟩

/-- C2 on the walk over `[[1, 2]]` with the cursor on the `1`: a token is
selected, the inner array is a visited node with a parent that contains the
cursor, and the selected token contains the cursor. -/
theorem lexical.TokenAtLocation_isSome_iff_witness :
    ((some Example.numberOne).isSome = true ↔
      ∃ v ∈ Example.arrayVisits, ∃ nl : locate.Locatable,
        lexical.previsitLocatable Example.noLocators
            (lexical.newHoverVisitor "[[1, 2]]" ⟨1, 3⟩)
            v.token v.parent v.env = .ok nl ∧
          nl.Parent ≠ none ∧ locate.inRange ⟨1, 3⟩ nl.Loc = true) ∧
    (∀ S, some Example.numberOne = some S → locate.inRange ⟨1, 3⟩ S.Loc = true) ∧
    ((∀ v ∈ Example.arrayVisits, ∀ nl : locate.Locatable,
        lexical.previsitLocatable Example.noLocators
            (lexical.newHoverVisitor "[[1, 2]]" ⟨1, 3⟩)
            v.token v.parent v.env = .ok nl →
          locate.inRange ⟨1, 3⟩ nl.Loc = false) → some Example.numberOne = none) :=
  lexical.TokenAtLocation_isSome_iff Example.noLocators "[[1, 2]]" ⟨1, 3⟩
    Example.arrayVisits (some Example.numberOne) rfl

/-! ## The symbol resolver -/

/-- C5: the signature that `handleFunction` builds for `function(a, b=1, c=2)`
(one required parameter, two optional ones) is `a, b=1, , c=2`, with a doubled
separator; it is not the list `a`, `b=1`, `c=2` joined with a comma and a
blank. The separator written before an optional parameter when required
parameters exist is written before each of them, not only the first. -/
theorem locate.functionSignature_doubled_separator :
    locate.functionSignature Example.twoOptionalParameters = "a, b=1, , c=2" ∧
    locate.functionSignature Example.twoOptionalParameters ≠
      ", ".intercalate ["a", "b=1", "c=2"] := by
  decide

/-- C6 fails as stated: for `function(a, b, c=3)` inside field `f` the
description is `(function) (field) f(a, b, c=3)`, not
`(function) f(a, b, c=3)`. -/
theorem locate.Resolve_function_not_bare_name :
    locate.Resolve 0 (some Example.functionInF) [] Example.missCache =
      some (.ok { Location := Example.functionInF.Loc,
                  Token := Example.functionInF.Token,
                  Description := "(function) (field) f(a, b, c=3)" }) ∧
    "(function) (field) f(a, b, c=3)" ≠ "(function) f(a, b, c=3)" :=
  ⟨rfl, by decide⟩

/-- C6 as amended: resolving a function node whose enclosing context (the
parent of its parent) is the object field named `f` gives the description made
of the prefix `(function) `, the token name of the field, which is `(field) f`,
and the signature text of `handleFunction` in parentheses; the location is the
range of the function node and the token is the function node. -/
theorem locate.Resolve_function_in_field (fuel : Nat)
    (l p g : locate.Locatable) (loc nloc : ast.LocationRange)
    (params : ast.Parameters) (fld : ast.DesugaredObjectField) (f : String)
    (jPaths : List String) (cache : locate.NodeCache)
    (hl : l.Token = .node (.mk loc (.Function params)))
    (hp : l.Parent = some p) (hg : p.Parent = some g)
    (hf : g.Token = .DesugaredObjectField fld)
    (hname : fld.Name = .mk nloc (.LiteralString f)) :
    locate.Resolve fuel (some l) jPaths cache =
      some (.ok { Location := l.Loc, Token := l.Token,
                  Description := "(function) " ++ ("(field) " ++ f) ++ "(" ++
                    locate.functionSignature params ++ ")" }) := by
  simp only [locate.Resolve, hl, locate.handleFunction, hp, hg, hf,
    astext.TokenName, astext.TokenValue, hname]

/-- C6 as amended, for `function(a, b, c=3)` inside field `f`: the description
is `(function) (field) f(a, b, c=3)`. -/
theorem locate.Resolve_function_in_field_witness :
    locate.Resolve 0 (some Example.functionInF) [] Example.missCache =
      some (.ok { Location := Example.span 6 27,
                  Token := Example.functionInF.Token,
                  Description := "(function) (field) f(a, b, c=3)" }) :=
  locate.Resolve_function_in_field 0 Example.functionInF Example.fieldFBody
    Example.fieldF (Example.span 6 27) (Example.span 3 3) Example.abcParameters
    _ "f" [] Example.missCache rfl rfl rfl rfl rfl

/-- C7 fails as stated: resolving the reference `x` of `local x = "hello"; x`
gives the description `(string)`, without the name of the variable. -/
theorem locate.Resolve_var_string_no_name :
    locate.Resolve 1 (some Example.xReference) [] Example.missCache =
      some (.ok { Location := Example.span 11 17,
                  Token := Example.helloBinding.Token,
                  Description := "(string)" }) ∧
    "(string)" ≠ "(string) x" :=
  ⟨rfl, by decide⟩

/-- C7 as amended: resolving a variable reference `x` whose environment entry
is a string literal located at range `R` succeeds with the description
`(string)` (the kind label alone), the location `R` and the string literal as
token. -/
theorem locate.Resolve_var_string (fuel : Nat) (l ref : locate.Locatable)
    (loc sloc : ast.LocationRange) (x value : String) (jPaths : List String)
    (cache : locate.NodeCache)
    (hl : l.Token = .node (.mk loc (.Var x)))
    (henv : l.Env.lookup x = some ref)
    (href : ref.Token = .node (.mk sloc (.LiteralString value))) :
    locate.Resolve (fuel + 1) (some l) jPaths cache =
      some (.ok { Location := ref.Loc, Token := ref.Token,
                  Description := "(string)" }) := by
  simp only [locate.Resolve, hl, locate.handleVar, henv, href,
    locate.resolvedIdentifier, astext.TokenName, locate.withDescription]

/-- C7 as amended, on `local x = "hello"; x`. -/
theorem locate.Resolve_var_string_witness :
    locate.Resolve 1 (some Example.xReference) [] Example.missCache =
      some (.ok { Location := Example.span 11 17,
                  Token := Example.helloBinding.Token,
                  Description := "(string)" }) :=
  locate.Resolve_var_string 0 Example.xReference Example.helloBinding
    (Example.span 20 20) (Example.span 11 17) "x" "hello" [] Example.missCache
    rfl rfl rfl

/-- C8 fails as stated: resolving `o.a.b` of
`local o = { a: { b: 1 } }; o.a.b` gives the location of the binding of `o`
(the whole object literal), which is neither the range of field `b` nor the
range of field `a`. -/
theorem locate.Resolve_index_chain_location_of_root :
    locate.Resolve 3 (some Example.oabReference) [] Example.missCache =
      some (.ok { Location := Example.oBinding.Loc,
                  Token := Example.oabReference.Token,
                  Description := "(number)" }) ∧
    Example.oBinding.Loc ≠ Example.fieldBRange ∧
    Example.oBinding.Loc ≠ Example.fieldARange :=
  ⟨rfl, by decide, by decide⟩

/-- C8 as amended: resolving the index chain `o.a.b` where the environment
binds `o` to the object literal `{ a: { b: 1 } }` gives a result whose location
is the location of the environment entry of `o`, whose token is the index node
and whose description is `(number)`, the kind of the value of field `b`. -/
theorem locate.Resolve_index_chain_o_a_b (fuel : Nat) (l ref : locate.Locatable)
    (l1 l2 l3 l4 l5 l6 : ast.LocationRange) (i1 i2 : Option ast.Node)
    (h1 h2 : Int) (e1 e2 : Option ast.Node) (jPaths : List String)
    (cache : locate.NodeCache)
    (hl : l.Token = .node (.mk l1 (.Index (.mk l2 (.Index (.mk l3 (.Var "o")) i1
      (some "a"))) i2 (some "b"))))
    (henv : l.Env.lookup "o" = some ref)
    (href : ref.Token = .node (.mk l4 (.Object [.mk h1 (some "a") e1
      (.mk l5 (.Object [.mk h2 (some "b") e2 (.mk l6 (.LiteralNumber "1"))]))]))) :
    locate.Resolve (fuel + 3) (some l) jPaths cache =
      some (.ok { Location := ref.Loc, Token := l.Token,
                  Description := "(number)" }) := by
  simp [locate.Resolve, hl, locate.handleIndex, locate.handleIndexLoop, henv,
    href, locate.describe, locate.describeInObjectWith, locate.describeFields,
    astext.ObjectFieldName, ast.ObjectField.Id, ast.ObjectField.Expr2,
    astext.TokenName, locate.withDescription]

/-- C8 as amended, on `local o = { a: { b: 1 } }; o.a.b`. -/
theorem locate.Resolve_index_chain_o_a_b_witness :
    locate.Resolve 3 (some Example.oabReference) [] Example.missCache =
      some (.ok { Location := Example.span 11 25,
                  Token := Example.oabReference.Token,
                  Description := "(number)" }) :=
  locate.Resolve_index_chain_o_a_b 0 Example.oabReference Example.oBinding
    _ _ _ _ _ _ _ _ _ _ _ _ [] Example.missCache rfl rfl rfl

section ChainLemmas

open ast astext locate

theorem handleIndexLoop_indexChain (fuel : Nat) (l : Locatable)
    (cache : NodeCache) :
    ∀ (steps : List IndexStep) (root : Node) (acc : List String),
      handleIndexLoop fuel l cache (indexChain root steps) acc =
        handleIndexLoop fuel l cache root (steps.map IndexStep.Id ++ acc) := by
  intro steps
  induction steps with
  | nil =>
    intro root acc
    rfl
  | cons s rest ih =>
    intro root acc
    have := ih (.mk s.loc (.Index root s.Index (some s.Id))) acc
    simp only [indexChain, List.foldl_cons] at this ⊢
    rw [this]
    simp [handleIndexLoop]

/-- Resolving a non-empty index chain rooted at a variable found in the
environment describes the bound token with the names in source order. -/
theorem Resolve_indexChain (fuel : Nat) (l ref : Locatable)
    (vloc : LocationRange) (x : String) (s : IndexStep) (steps : List IndexStep)
    (jPaths : List String) (cache : NodeCache)
    (hl : l.Token = .node (indexChain (.mk vloc (.Var x)) (s :: steps)))
    (henv : l.Env.lookup x = some ref) :
    Resolve fuel (some l) jPaths cache =
      withDescription
        (fun description =>
          { Location := ref.Loc, Token := l.Token, Description := description })
        (describe fuel ref.Token (s.Id :: steps.map IndexStep.Id) cache) := by
  have hloop := handleIndexLoop_indexChain fuel l cache (s :: steps)
    (.mk vloc (.Var x)) []
  rcases List.eq_nil_or_concat (s :: steps) with h | ⟨init, last, h⟩
  · cases h
  · have hnode : indexChain (.mk vloc (.Var x)) (s :: steps) =
        .mk last.loc (.Index (indexChain (.mk vloc (.Var x)) init) last.Index
          (some last.Id)) := by
      rw [h]
      simp [indexChain, List.foldl_append]
    have hres : Resolve fuel (some l) jPaths cache =
        handleIndexLoop fuel l cache
          (indexChain (.mk vloc (.Var x)) (s :: steps)) [] := by
      simp only [Resolve, hl, hnode, handleIndex]
    rw [hres, hloop]
    simp [handleIndexLoop, henv]

theorem ObjectFieldName_of_named {f : ObjectField}
    (h : f.Id ≠ none ∨ f.Expr1 ≠ none) : ∃ n, ObjectFieldName f = .ok n := by
  unfold ObjectFieldName
  cases hid : f.Id with
  | some id => exact ⟨id, rfl⟩
  | none =>
    cases he : f.Expr1 with
    | some e => exact ⟨_, rfl⟩
    | none => simp [hid, he] at h

theorem describeFields_absent
    (describe : Token → List String → Option (Res String)) (name : String)
    (rest : List String) :
    ∀ fields : List ObjectField,
      (∀ f ∈ fields, f.Id ≠ none ∨ f.Expr1 ≠ none) →
      (∀ f ∈ fields, ObjectFieldName f ≠ .ok name) →
      describeFields describe name rest fields =
        some (.error (.error (.fieldNotFound name))) := by
  intro fields
  induction fields with
  | nil =>
    intro _ _
    rfl
  | cons f fs ih =>
    intro hnamed habsent
    obtain ⟨n, hn⟩ := ObjectFieldName_of_named (hnamed f (List.mem_cons_self _ _))
    have hne : n ≠ name := by
      intro h
      exact habsent f (List.mem_cons_self _ _) (by rw [hn, h])
    simp only [describeFields, hn, ne_eq, hne, not_false_eq_true, if_true]
    exact ih (fun g hg => hnamed g (List.mem_cons_of_mem _ hg))
      (fun g hg => habsent g (List.mem_cons_of_mem _ hg))

end ChainLemmas

section CacheLemmas

open ast astext locate

theorem describe_import (fuel : Nat) (iloc : LocationRange) (file : String)
    (indicies : List String) (cache : NodeCache) :
    (cache.Get file = .error .NodeCacheMissErr →
      describe (fuel + 1) (.node (.mk iloc (.Import file))) indicies cache =
        some (.ok "node cache miss")) ∧
    (∀ err, cache.Get file = .error err → err ≠ .NodeCacheMissErr →
      describe (fuel + 1) (.node (.mk iloc (.Import file))) indicies cache =
        some (.error (.error err))) := by
  constructor
  · intro h
    simp only [describe, h]
  · intro err h hne
    simp only [describe, h]

theorem resolvedIdentifier_import (fuel : Nat) (iloc : LocationRange)
    (file : String) (jPaths : List String) (cache : NodeCache) :
    (cache.Get file = .error .NodeCacheMissErr →
      resolvedIdentifier (fuel + 1) (.node (.mk iloc (.Import file))) jPaths cache =
        some (.ok "node cache miss")) ∧
    (∀ err, cache.Get file = .error err → err ≠ .NodeCacheMissErr →
      resolvedIdentifier (fuel + 1) (.node (.mk iloc (.Import file))) jPaths cache =
        some (.error (.error err))) := by
  constructor
  · intro h
    simp only [resolvedIdentifier, importDescriptionWith, h]
  · intro err h hne
    simp only [resolvedIdentifier, importDescriptionWith, h]

end CacheLemmas

/-- C9: for an object literal whose fields all have a name and a non-empty list
of index names whose first name is the name of no field, `describeInObject`
returns the "unable to find field" error, which is an error value and not a
panic, and no description; so does `Resolve` on every index chain rooted at a
variable bound to that object whose first name is that name, such as
`o.missing`. -/
theorem locate.describeInObject_field_not_found (fuel : Nat)
    (fields : List ast.ObjectField) (rest : List String)
    (cache : locate.NodeCache) (l ref : locate.Locatable)
    (vloc oloc : ast.LocationRange) (x : String) (s : locate.IndexStep)
    (steps : List locate.IndexStep) (jPaths : List String)
    (hnamed : ∀ f ∈ fields, f.Id ≠ none ∨ f.Expr1 ≠ none)
    (habsent : ∀ f ∈ fields, astext.ObjectFieldName f ≠ .ok s.Id)
    (hl : l.Token = .node (locate.indexChain (.mk vloc (.Var x)) (s :: steps)))
    (henv : l.Env.lookup x = some ref)
    (href : ref.Token = .node (.mk oloc (.Object fields))) :
    locate.describeInObject fuel fields (s.Id :: rest) cache =
      some (.error (.error (.fieldNotFound s.Id))) ∧
    locate.Resolve (fuel + 1) (some l) jPaths cache =
      some (.error (.error (.fieldNotFound s.Id))) := by
  constructor
  · simp only [locate.describeInObject, locate.describeInObjectWith]
    exact describeFields_absent _ _ _ fields hnamed habsent
  · rw [Resolve_indexChain (fuel + 1) l ref vloc x s steps jPaths cache hl henv,
      href]
    simp only [locate.describe, locate.describeInObjectWith]
    rw [describeFields_absent _ _ _ fields hnamed habsent]
    rfl

/-- C9 on `o.missing` with `o` bound to `{ a: { b: 1 } }`. -/
theorem locate.describeInObject_field_not_found_witness :
    locate.describeInObject 0 [Example.fieldA] ["missing"] Example.missCache =
      some (.error (.error (.fieldNotFound "missing"))) ∧
    locate.Resolve 1 (some Example.oMissingReference) [] Example.missCache =
      some (.error (.error (.fieldNotFound "missing"))) :=
  locate.describeInObject_field_not_found 0 [Example.fieldA] []
    Example.missCache Example.oMissingReference Example.oBinding
    (Example.span 28 28) (Example.span 11 25) "o"
    { loc := Example.span 28 36, Index := none, Id := "missing" } [] []
    (by
      intro f hf
      rw [List.mem_singleton] at hf
      subst hf
      exact Or.inl (fun h => Option.noConfusion h))
    (by
      intro f hf
      rw [List.mem_singleton] at hf
      subst hf
      intro h
      exact absurd (Except.ok.inj h) (by decide))
    rfl rfl rfl

/-- C10: let the root variable of a reference be bound to an import. If the
imported file is a miss of the node cache, resolving the variable and resolving
any index chain rooted at it both succeed with the description
`node cache miss`; if the cache fails with any other error, both resolutions
fail with exactly that error. -/
theorem locate.Resolve_import_cache_miss (fuel : Nat) (cache : locate.NodeCache)
    (file : String) (lv li ref : locate.Locatable)
    (loc vloc iloc : ast.LocationRange) (x : String) (s : locate.IndexStep)
    (steps : List locate.IndexStep) (jPaths : List String)
    (hlv : lv.Token = .node (.mk loc (.Var x)))
    (hlvenv : lv.Env.lookup x = some ref)
    (hli : li.Token = .node (locate.indexChain (.mk vloc (.Var x)) (s :: steps)))
    (hlienv : li.Env.lookup x = some ref)
    (href : ref.Token = .node (.mk iloc (.Import file))) :
    (cache.Get file = .error .NodeCacheMissErr →
      locate.Resolve (fuel + 1) (some lv) jPaths cache =
        some (.ok { Location := ref.Loc, Token := ref.Token,
                    Description := "node cache miss" }) ∧
      locate.Resolve (fuel + 1) (some li) jPaths cache =
        some (.ok { Location := ref.Loc, Token := li.Token,
                    Description := "node cache miss" })) ∧
    (∀ err, cache.Get file = .error err → err ≠ .NodeCacheMissErr →
      locate.Resolve (fuel + 1) (some lv) jPaths cache =
        some (.error (.error err)) ∧
      locate.Resolve (fuel + 1) (some li) jPaths cache =
        some (.error (.error err))) := by
  have hvar : locate.Resolve (fuel + 1) (some lv) jPaths cache =
      locate.withDescription
        (fun s => { Location := ref.Loc, Token := ref.Token, Description := s })
        (locate.resolvedIdentifier (fuel + 1) ref.Token jPaths cache) := by
    simp only [locate.Resolve, hlv, locate.handleVar, hlvenv]
  have hidx := Resolve_indexChain (fuel + 1) li ref vloc x s steps jPaths cache
    hli hlienv
  rw [hvar, hidx, href]
  constructor
  · intro hmiss
    rw [(resolvedIdentifier_import fuel iloc file jPaths cache).1 hmiss,
      (describe_import fuel iloc file _ cache).1 hmiss]
    exact ⟨rfl, rfl⟩
  · intro err herr hne
    rw [(resolvedIdentifier_import fuel iloc file jPaths cache).2 err herr hne,
      (describe_import fuel iloc file _ cache).2 err herr hne]
    exact ⟨rfl, rfl⟩

/-- C10 on `local m = import "x.ext"; m.field`: with a cache that misses, `m`
and `m.field` resolve to the placeholder; with a cache that fails otherwise,
both fail with the error of the cache. -/
theorem locate.Resolve_import_cache_miss_witness :
    (locate.Resolve 1 (some Example.mReference) [] Example.missCache =
        some (.ok { Location := Example.span 11 24,
                    Token := Example.mBinding.Token,
                    Description := "node cache miss" }) ∧
      locate.Resolve 1 (some Example.mFieldReference) [] Example.missCache =
        some (.ok { Location := Example.span 11 24,
                    Token := Example.mFieldReference.Token,
                    Description := "node cache miss" })) ∧
    (locate.Resolve 1 (some Example.mReference) [] Example.brokenCache =
        some (.error (.error (.external "parse error"))) ∧
      locate.Resolve 1 (some Example.mFieldReference) [] Example.brokenCache =
        some (.error (.error (.external "parse error")))) :=
  ⟨(locate.Resolve_import_cache_miss 0 Example.missCache "x.ext"
      Example.mReference Example.mFieldReference Example.mBinding
      (Example.span 27 27) (Example.span 27 27) (Example.span 11 24) "m"
      { loc := Example.span 27 33, Index := none, Id := "field" } [] []
      rfl rfl rfl rfl rfl).1 rfl,
    (locate.Resolve_import_cache_miss 0 Example.brokenCache "x.ext"
      Example.mReference Example.mFieldReference Example.mBinding
      (Example.span 27 27) (Example.span 27 27) (Example.span 11 24) "m"
      { loc := Example.span 27 33, Index := none, Id := "field" } [] []
      rfl rfl rfl rfl rfl).2 (.external "parse error") rfl (by decide)⟩

/-! ## Functions outside an object field -/

/-- A function node whose parent and grandparent exist and whose grandparent
is not an object field resolves to the "can't handle function" error. -/
theorem Resolve_function_outside_field (fuel : Nat)
    (l p g : locate.Locatable) (loc : ast.LocationRange)
    (params : ast.Parameters) (jPaths : List String) (cache : locate.NodeCache)
    (hl : l.Token = .node (.mk loc (.Function params)))
    (hp : l.Parent = some p) (hg : p.Parent = some g)
    (hf : ∀ fld, g.Token ≠ .DesugaredObjectField fld) :
    locate.Resolve fuel (some l) jPaths cache =
      some (.error (.error (.functionContext g.Token.goType))) := by
  simp only [locate.Resolve, hl, locate.handleFunction, hp, hg]

/-- C11: on a function node without a parent, and on a function node whose
parent has no parent, `Resolve` does not return an error: the dereference
`l.Parent.Parent.Token` in `handleFunction` panics. -/
theorem locate.Resolve_function_nil_parent_panics :
    locate.Resolve 0 (some Example.functionAtRoot) [] Example.missCache =
      some (.error (.panic "invalid memory address or nil pointer dereference")) ∧
    locate.Resolve 0 (some Example.functionInArray) [] Example.missCache =
      some (.error (.panic "invalid memory address or nil pointer dereference")) :=
  ⟨rfl, rfl⟩

/-! ## Invalid ranges, location failures and replacement in previsit -/

/-- What the test `isInvalidRange` computes: the begin line is 0, or the end
column is 0, or the begin column and the end line are both 0. -/
theorem isInvalidRange_iff (r : ast.LocationRange) :
    lexical.isInvalidRange r = true ↔
      r.Begin.Line = 0 ∨ (r.Begin.Column = 0 ∧ r.End.Line = 0) ∨
        r.End.Column = 0 := by
  simp [lexical.isInvalidRange, or_assoc]

/-- C12: a range whose only zero coordinate is the begin column, or the end
line, is not invalid for `isInvalidRange`, and previsit records a node located
at such a range with that range, not with the range of its parent. -/
theorem lexical.isInvalidRange_single_zero_not_invalid :
    lexical.isInvalidRange Example.zeroBeginColumn = false ∧
    lexical.isInvalidRange Example.zeroEndLine = false ∧
    lexical.previsitLocatable Example.noLocators
        (lexical.newHoverVisitor "[[1, 2]]" ⟨1, 3⟩)
        (.node (.mk Example.zeroBeginColumn .Array)) (some Example.outerArray) [] =
      .ok { Token := .node (.mk Example.zeroBeginColumn .Array),
            Loc := Example.zeroBeginColumn,
            Parent := some Example.outerArray, Env := [] } ∧
    Example.zeroBeginColumn ≠ Example.outerArray.Loc :=
  ⟨by decide, by decide, rfl, by decide⟩

/-- C13 fails as stated: when the locator of an identifier fails, previsit
returns that error and records nothing. -/
theorem lexical.previsit_location_failure_returned :
    lexical.previsit Example.noLocators
        (lexical.newHoverVisitor "[[1, 2]]" ⟨1, 3⟩)
        (.Identifier "x") (some Example.outerArray) [] =
      .error (.error (.external "not found")) :=
  rfl

/-- C13 as amended: when the location-reconstruction step of previsit (the
type switch that calls `locate.DesugaredObjectField`, `Identifier`,
`LocalBind`, `NamedParameter` or `RequiredParameter`) fails, previsit returns
that failure unchanged, a walk that reaches the node stops with it, and
`TokenAtLocation` hands it to its caller. -/
theorem lexical.previsit_location_failure (L : locate.Locators)
    (hv : lexical.hoverVisitor) (v : lexical.Visit) (rest : List lexical.Visit)
    (err : Exc)
    (hfail : lexical.previsitRange L hv v.token v.parent = .error err) :
    lexical.previsit L hv v.token v.parent v.env = .error err ∧
    lexical.Visit.run L hv (v :: rest) = .error err ∧
    lexical.TokenAtLocation L hv (v :: rest) = .error err := by
  have h1 : lexical.previsit L hv v.token v.parent v.env = .error err := by
    simp only [lexical.previsit, lexical.previsitLocatable, hfail]
    rfl
  refine ⟨h1, ?_, ?_⟩
  · simp only [lexical.Visit.run, h1]
  · simp only [lexical.TokenAtLocation, lexical.Visit.run, h1]

/-- C13 as amended, on an identifier whose locator fails. -/
theorem lexical.previsit_location_failure_witness :
    lexical.previsit Example.noLocators
        (lexical.newHoverVisitor "[[1, 2]]" ⟨1, 3⟩)
        (.Identifier "x") (some Example.outerArray) [] =
      .error (.error (.external "not found")) ∧
    lexical.Visit.run Example.noLocators
        (lexical.newHoverVisitor "[[1, 2]]" ⟨1, 3⟩)
        [{ token := .Identifier "x", parent := some Example.outerArray, env := [] }] =
      .error (.error (.external "not found")) ∧
    lexical.TokenAtLocation Example.noLocators
        (lexical.newHoverVisitor "[[1, 2]]" ⟨1, 3⟩)
        [{ token := .Identifier "x", parent := some Example.outerArray, env := [] }] =
      .error (.error (.external "not found")) :=
  lexical.previsit_location_failure Example.noLocators
    (lexical.newHoverVisitor "[[1, 2]]" ⟨1, 3⟩)
    { token := .Identifier "x", parent := some Example.outerArray, env := [] } []
    (.error (.external "not found")) rfl

/-- C17 fails as stated: with the inner array selected, a node located at the
same range as the inner array replaces it. -/
theorem lexical.previsit_equal_range_replaces :
    lexical.previsit Example.noLocators Example.innerSelected
        Example.sameRangeNode.Token (some Example.innerArray) [] =
      .ok { Example.innerSelected with selectedToken := some Example.sameRangeNode } ∧
    Example.sameRangeNode.Loc.Begin = Example.innerArray.Loc.Begin ∧
    Example.sameRangeNode.Loc.End = Example.innerArray.Loc.End ∧
    astext.TokenName Example.sameRangeNode.Token = .ok "(self)" ∧
    astext.TokenName Example.innerArray.Token = .ok "(array)" :=
  ⟨rfl, rfl, rfl, rfl, rfl⟩

/-- C17 as amended: once a token `T` is selected, a newly visited node `nl`
replaces it exactly when the range of `nl` contains the cursor position and
`isRangeSmaller T.Loc nl.Loc` holds, that is when the range of `nl` begins at
or after the begin of `T` and ends at or before the end of `T`; the comparison
is inclusive, so a node with the same begin and end as `T` that contains the
cursor replaces it. -/
theorem lexical.previsit_replaces_iff (L : locate.Locators)
    (hv : lexical.hoverVisitor) (token : Token)
    (parent : Option locate.Locatable) (env : locate.Env)
    (nl T : locate.Locatable)
    (hnl : lexical.previsitLocatable L hv token parent env = .ok nl)
    (hsel : hv.selectedToken = some T) :
    lexical.previsit L hv token parent env =
      .ok (if locate.inRange hv.loc nl.Loc = true ∧
              (lexLe T.Loc.Begin nl.Loc.Begin ∧ lexLe nl.Loc.End T.Loc.End)
           then { hv with selectedToken := some nl } else hv) ∧
    (nl.Loc.Begin = T.Loc.Begin → nl.Loc.End = T.Loc.End →
      locate.inRange hv.loc nl.Loc = true →
      lexical.previsit L hv token parent env =
        .ok { hv with selectedToken := some nl }) := by
  have hmain : lexical.previsit L hv token parent env =
      .ok (if locate.inRange hv.loc nl.Loc = true ∧
              (lexLe T.Loc.Begin nl.Loc.Begin ∧ lexLe nl.Loc.End T.Loc.End)
           then { hv with selectedToken := some nl } else hv) := by
    simp only [lexical.previsit, hnl, lexical.selectToken, hsel,
      Option.isNone_some, Bool.false_eq_true, false_and, if_false,
      isRangeSmaller_iff]
  refine ⟨hmain, ?_⟩
  intro hb he hin
  rw [hmain, if_pos]
  refine ⟨hin, ?_, ?_⟩
  · rw [hb]
    exact lexLe_refl _
  · rw [he]
    exact lexLe_refl _

/-- C17 as amended, on the node located at the range of the selected inner
array. -/
theorem lexical.previsit_replaces_iff_witness :
    lexical.previsit Example.noLocators Example.innerSelected
        Example.sameRangeNode.Token (some Example.innerArray) [] =
      .ok { Example.innerSelected with selectedToken := some Example.sameRangeNode } :=
  (lexical.previsit_replaces_iff Example.noLocators Example.innerSelected
    Example.sameRangeNode.Token (some Example.innerArray) []
    Example.sameRangeNode Example.innerArray rfl rfl).2 rfl rfl (by decide)

/-! ## The scope evaluator -/

section EvalLemmas

open ast token

theorem nearestBinding_nil (x : String) : nearestBinding [] x = none := rfl

theorem nearestBinding_append (as bs : List LocalBind) (x : String) :
    nearestBinding (as ++ bs) x = (nearestBinding bs x).or (nearestBinding as x) := by
  unfold nearestBinding
  rw [List.reverse_append, List.find?_append]
  cases List.find? (fun b => b.Variable == x) bs.reverse <;> rfl

theorem nearestBinding_singleton (b : LocalBind) (x : String) :
    nearestBinding [b] x = if x = b.Variable then some b.Body else none := by
  unfold nearestBinding
  by_cases h : x = b.Variable
  · simp [h]
  · have : ¬ b.Variable = x := fun h1 => h h1.symm
    simp [h, this]

theorem lookup_filter_ne (es : evalScope) (k x : String) (h : x ≠ k) :
    List.lookup x (es.filter (fun kv => kv.1 != k)) = List.lookup x es := by
  induction es with
  | nil => rfl
  | cons kv es ih =>
    obtain ⟨k1, v1⟩ := kv
    by_cases hk : k1 = k
    · subst hk
      have hx : (x == k1) = false := by simpa using h
      simp [List.filter, List.lookup, hx, ih]
    · have hk1 : (k1 != k) = true := by simpa using hk
      simp only [List.filter, hk1, List.lookup, ih]

theorem evalScope_set_get (es : evalScope) (k : String) (v : Node) (x : String) :
    (es.set k v).get x = if x = k then some v else es.get x := by
  unfold evalScope.set evalScope.get
  by_cases h : x = k
  · subst h
    simp [List.lookup]
  · have hx : (x == k) = false := by simpa using h
    simp only [List.lookup, hx, h, if_false]
    exact lookup_filter_ne es k x h

theorem evalScope_Clone_get (es : evalScope) (x : String) :
    es.Clone.get x = es.get x := by
  induction es with
  | nil => rfl
  | cons kv es ih =>
    obtain ⟨k1, v1⟩ := kv
    have : evalScope.Clone ((k1, v1) :: es) = (evalScope.Clone es).set k1 v1 := rfl
    rw [this, evalScope_set_get, ih]
    unfold evalScope.get
    by_cases h : x = k1
    · subst h
      simp [List.lookup]
    · have hx : (x == k1) = false := by simpa using h
      simp [List.lookup, hx, h]

theorem foldl_set_get (binds : List LocalBind) :
    ∀ (s0 : evalScope) (x : String),
      (binds.foldl (fun s bind => evalScope.set s bind.Variable bind.Body) s0).get x =
        (nearestBinding binds x).or (s0.get x) := by
  induction binds with
  | nil =>
    intro s0 x
    rfl
  | cons b bs ih =>
    intro s0 x
    have happ : nearestBinding (b :: bs) x =
        (nearestBinding bs x).or (nearestBinding [b] x) :=
      nearestBinding_append [b] bs x
    rw [List.foldl_cons, ih, evalScope_set_get, happ, nearestBinding_singleton,
      Option.or_assoc]
    by_cases h : x = b.Variable <;> simp [h]

theorem localScope_get (s0 : evalScope) (binds : List LocalBind) (x : String) :
    (localScope s0 binds).get x = (nearestBinding binds x).or (s0.get x) := by
  unfold localScope
  rw [foldl_set_get, evalScope_Clone_get]

theorem chainScope_get (locals : List (LocationRange × List LocalBind)) :
    ∀ (s0 : evalScope) (x : String),
      (locals.foldl (fun s l => localScope s l.2) s0).get x =
        (nearestBinding (locals.map Prod.snd).flatten x).or (s0.get x) := by
  induction locals with
  | nil =>
    intro s0 x
    rfl
  | cons l rest ih =>
    intro s0 x
    rw [List.foldl_cons, ih, localScope_get, List.map_cons, List.flatten_cons,
      nearestBinding_append, Option.or_assoc]

end EvalLemmas

section EvalChain

open ast token

/-- A node at which `eval` stops without a panic: a variable reference or a
partial placeholder. -/
theorem eval_terminal (e : evaluator) (terminal : Node) (d : Nat)
    (s0 : evalScope)
    (hterm : (∃ loc, terminal = .mk loc .PartialNode) ∨
      (∃ loc id, terminal = .mk loc (.Var id))) :
    evaluator.eval e terminal d s0 =
      .ok (if e.until_ = some d then { e with scope := some s0 } else e) := by
  rcases hterm with ⟨loc, rfl⟩ | ⟨loc, id, rfl⟩ <;> simp [evaluator.eval]

theorem eval_chain (e : evaluator) (terminal : Node)
    (hterm : (∃ loc, terminal = .mk loc .PartialNode) ∨
      (∃ loc id, terminal = .mk loc (.Var id))) :
    ∀ (locals : List (LocationRange × List LocalBind)) (d : Nat) (s0 : evalScope),
      evaluator.eval e (localChain locals terminal) d s0 =
        .ok (match e.until_ with
          | some j =>
            if d ≤ j ∧ j ≤ d + locals.length then
              evaluator.mk e.until_
                (some ((locals.take (j - d)).foldl (fun s l => localScope s l.2) s0))
            else e
          | none => e) := by
  intro locals
  induction locals with
  | nil =>
    intro d s0
    simp only [localChain, List.foldr_nil]
    rw [eval_terminal e terminal d s0 hterm]
    cases hu : e.until_ with
    | none => simp
    | some j =>
      by_cases hj : j = d
      · subst hj
        simp
      · have h1 : ¬ (d ≤ j ∧ j ≤ d + ([] : List (LocationRange × List LocalBind)).length) := by
          simp only [List.length_nil, Nat.add_zero]
          omega
        have h2 : ¬ (some j = some d) := by
          intro h
          exact hj (Option.some.inj h)
        dsimp only
        rw [if_neg h1, if_neg h2]
  | cons l rest ih =>
    intro d s0
    have hchain : localChain (l :: rest) terminal =
        .mk l.1 (.Local l.2 (localChain rest terminal)) := rfl
    rw [hchain]
    simp only [evaluator.eval]
    rw [ih (d + 1) (localScope s0 l.2)]
    cases hu : e.until_ with
    | none => simp [hu]
    | some j =>
      dsimp only
      by_cases hj : j = d
      · subst hj
        have h1 : ¬ (j + 1 ≤ j ∧ j ≤ j + 1 + rest.length) := by omega
        rw [if_neg h1]
        simp [hu]
      · by_cases hin : d + 1 ≤ j ∧ j ≤ d + 1 + rest.length
        · have h2 : d ≤ j ∧ j ≤ d + (l :: rest).length := by
            simp only [List.length_cons]
            omega
          have h3 : j - d = (j - (d + 1)) + 1 := by omega
          have h4 : ¬ (some j = some d) := fun h => hj (Option.some.inj h)
          rw [if_pos hin, if_pos h2, h3, List.take_succ_cons, List.foldl_cons]
          simp [hu, hj]
        · have h2 : ¬ (d ≤ j ∧ j ≤ d + (l :: rest).length) := by
            simp only [List.length_cons]
            omega
          rw [if_neg hin, if_neg h2]
          simp [hu, hj]

end EvalChain

/-- C14: on a chain of nested locals `L0, ..., Lk-1` that ends in a variable
reference or a partial placeholder, `eval` with the node at depth `j` as target
returns the scope built from the binds of `L0, ..., Lj-1` alone, inserted from
the outermost local inward. In that scope every identifier maps to the bound
expression of its nearest enclosing binding and an identifier bound by none of
these locals is absent; the binds of `Lj` and of the locals below it are not
part of it. -/
theorem token.eval_local_chain
    (locals : List (ast.LocationRange × List ast.LocalBind))
    (terminal : ast.Node) (j : Nat)
    (hterm : (∃ loc, terminal = .mk loc .PartialNode) ∨
      (∃ loc id, terminal = .mk loc (.Var id)))
    (hj : j ≤ locals.length) :
    token.eval (token.localChain locals terminal) (some j) =
      .ok (some ((locals.take j).foldl (fun s l => token.localScope s l.2) [])) ∧
    ∀ x : String,
      token.evalScope.get
          ((locals.take j).foldl (fun s l => token.localScope s l.2) []) x =
        nearestBinding ((locals.take j).map Prod.snd).flatten x := by
  constructor
  · unfold token.eval
    simp only []
    rw [eval_chain _ terminal hterm locals 0 []]
    simp [hj]
  · intro x
    rw [chainScope_get]
    simp [token.evalScope.get]

/-- C14 on `local x = 1; local y = 2, x = 3; x` with the final reference `x` as
target: the scope holds `x` bound to `3`, the nearer binding, and `y` bound to
`2`. -/
theorem token.eval_local_chain_witness :
    token.eval (token.localChain Example.nestedLocals Example.nestedLocalsBody)
        (some 2) =
      .ok (some [("x", Example.number "3" 31), ("y", Example.number "2" 24)]) ∧
    ∀ x : String,
      token.evalScope.get
          [("x", Example.number "3" 31), ("y", Example.number "2" 24)] x =
        nearestBinding
          [.mk "x" (Example.number "1" 11), .mk "y" (Example.number "2" 24),
            .mk "x" (Example.number "3" 31)] x :=
  token.eval_local_chain Example.nestedLocals Example.nestedLocalsBody 2
    (Or.inr ⟨_, _, rfl⟩) (by decide)

/-! ## Dispatch of the resolver -/

/-- A variable reference whose identifier is absent from the environment of
the node resolves to `ErrUnresolvable`. -/
theorem Resolve_var_absent (fuel : Nat) (l : locate.Locatable)
    (loc : ast.LocationRange) (x : String) (jPaths : List String)
    (cache : locate.NodeCache)
    (hl : l.Token = .node (.mk loc (.Var x)))
    (henv : l.Env.lookup x = none) :
    locate.Resolve fuel (some l) jPaths cache =
      some (.error (.error .ErrUnresolvable)) := by
  simp only [locate.Resolve, hl, locate.handleVar, henv]

/-- A token without a dispatch rule resolves to `ErrUnresolvable`. -/
theorem Resolve_no_rule (fuel : Nat) (l : locate.Locatable)
    (jPaths : List String) (cache : locate.NodeCache)
    (h : hasDispatchRule l.Token = false) :
    locate.Resolve fuel (some l) jPaths cache =
      some (.error (.error .ErrUnresolvable)) := by
  simp only [locate.Resolve]
  split <;> simp_all [hasDispatchRule]

/-- A variable reference whose identifier is bound to a token that is neither
an object literal nor an import resolves to the location and the token of the
binding, with the outcome of `TokenName` on that token as description: the
label when `TokenName` returns one, its panic otherwise. -/
theorem Resolve_var_bound (fuel : Nat) (l ref : locate.Locatable)
    (loc : ast.LocationRange) (x : String) (jPaths : List String)
    (cache : locate.NodeCache)
    (hl : l.Token = .node (.mk loc (.Var x)))
    (henv : l.Env.lookup x = some ref)
    (hobj : ∀ oloc fields, ref.Token ≠ .node (.mk oloc (.Object fields)))
    (himp : ∀ iloc file, ref.Token ≠ .node (.mk iloc (.Import file))) :
    locate.Resolve (fuel + 1) (some l) jPaths cache =
      locate.withDescription
        (fun s => { Location := ref.Loc, Token := ref.Token, Description := s })
        (some (astext.TokenName ref.Token)) := by
  simp only [locate.Resolve, hl, locate.handleVar, henv]
  congr 1
  unfold locate.resolvedIdentifier
  split
  · rename_i heq
    exact absurd heq (himp _ _)
  · rename_i heq
    exact absurd heq (hobj _ _)
  · rfl

/-- C15: a variable reference bound to a super index without an identifier
(`super[e]`), which is neither an object literal nor an import, does not
resolve: `TokenName` dereferences the nil `Id` and panics. -/
theorem locate.Resolve_var_bound_to_super_index_panics :
    locate.Resolve 1 (some Example.superReference) [] Example.missCache =
      some (.error (.panic "invalid memory address or nil pointer dereference")) ∧
    astext.TokenName Example.superBinding.Token =
      .error (.panic "invalid memory address or nil pointer dereference") :=
  ⟨rfl, rfl⟩

/-! ## Object descriptions -/

section ObjectDescriptionLemmas

open ast astext

theorem ObjectFieldName_fieldName {f : ObjectField} {name : String}
    (h : fieldName f = some name) : ObjectFieldName f = .ok name := by
  obtain ⟨hide, id, e1, e2⟩ := f
  cases id with
  | some id =>
    simp only [fieldName, Option.some.injEq] at h
    subst h
    rfl
  | none =>
    cases e1 with
    | none => simp [fieldName] at h
    | some e =>
      obtain ⟨loc, k⟩ := e
      cases k <;> simp only [fieldName, Option.some.injEq, reduceCtorEq] at h
      subst h
      rfl

theorem ObjectFieldName_getD {f : ObjectField} (h : fieldName f ≠ none) :
    ObjectFieldName f = .ok ((fieldName f).getD "") := by
  cases hn : fieldName f with
  | none => exact absurd hn h
  | some name => exact ObjectFieldName_fieldName hn

theorem ObjectFieldVisibility_known {f : ObjectField} (h : knownVisibility f.Hide) :
    ObjectFieldVisibility f = .ok (visibilityMarker f.Hide) := by
  unfold ObjectFieldVisibility visibilityMarker
  rcases h with h | h | h <;> rw [h] <;> rfl

theorem ObjectFieldVisibility_unknown {f : ObjectField}
    (h : ¬ knownVisibility f.Hide) :
    ObjectFieldVisibility f = .error (.error (.unknownVisibility f.Hide)) := by
  unfold ObjectFieldVisibility
  unfold knownVisibility at h
  have h1 : ¬ f.Hide = ObjectFieldHidden := fun h' => h (Or.inr (Or.inl h'))
  have h2 : ¬ f.Hide = ObjectFieldInherit := fun h' => h (Or.inl h')
  have h3 : ¬ f.Hide = ObjectFieldVisible := fun h' => h (Or.inr (Or.inr h'))
  simp only [h1, h2, h3, if_false]

theorem objectDescriptionLoop_succ :
    ∀ (fields : List ObjectField) (i : Nat) (buf : String),
      (∀ f ∈ fields, fieldName f ≠ none) →
      (∀ f ∈ fields, knownVisibility f.Hide) →
      objectDescriptionLoop fields (i + 1) buf = .ok (buf ++ fieldLines fields) := by
  intro fields
  induction fields with
  | nil =>
    intro i buf _ _
    simp [objectDescriptionLoop, fieldLines]
  | cons f fs ih =>
    intro i buf hnamed hknown
    have hn := ObjectFieldName_getD (hnamed f (List.mem_cons_self _ _))
    have hv := ObjectFieldVisibility_known (hknown f (List.mem_cons_self _ _))
    simp only [objectDescriptionLoop, hn, hv, Nat.add_one_ne_zero, if_false]
    rw [ih (i + 1) _ (fun g hg => hnamed g (List.mem_cons_of_mem _ hg))
      (fun g hg => hknown g (List.mem_cons_of_mem _ hg))]
    simp only [fieldLines, String.append_assoc]

theorem objectDescriptionLoop_unknown :
    ∀ (fields : List ObjectField) (i : Nat) (buf : String),
      (∀ f ∈ fields, fieldName f ≠ none) →
      (∃ f ∈ fields, ¬ knownVisibility f.Hide) →
      ∃ hide, ¬ knownVisibility hide ∧
        objectDescriptionLoop fields i buf =
          .error (.error (.unknownVisibility hide)) := by
  intro fields
  induction fields with
  | nil =>
    intro i buf _ h
    obtain ⟨f, hf, -⟩ := h
    cases hf
  | cons f fs ih =>
    intro i buf hnamed hex
    have hn := ObjectFieldName_getD (hnamed f (List.mem_cons_self _ _))
    by_cases hk : knownVisibility f.Hide
    · have hv := ObjectFieldVisibility_known hk
      simp only [objectDescriptionLoop, hn, hv]
      apply ih
      · exact fun g hg => hnamed g (List.mem_cons_of_mem _ hg)
      · obtain ⟨g, hg, hgk⟩ := hex
        rcases List.mem_cons.1 hg with rfl | hg
        · exact absurd hk hgk
        · exact ⟨g, hg, hgk⟩
    · have hv := ObjectFieldVisibility_unknown hk
      exact ⟨f.Hide, hk, by simp only [objectDescriptionLoop, hn, hv]⟩

end ObjectDescriptionLemmas

/-- C16: for a non-nil object whose fields all have a name (the identifier of
the field, or the text of the string literal that names it),
`ObjectDescription` returns, when every visibility is known, the text
`(object) {`, a newline if there is a field, one line
`  (field) <name><marker>,` per field in declaration order (marker `:` for
inherited, `::` for hidden, `:::` for forced-visible) and the closing brace;
when some field has another visibility value it returns the "unknown object
visibility" error. An object without fields gives exactly `(object) {}` and
the nil object gives the "object is nil" error. The expected text `objectText`
is written from these words alone and calls none of the functions of
token.go. -/
theorem astext.ObjectDescription_format (fields : List ast.ObjectField)
    (hnamed : ∀ f ∈ fields, fieldName f ≠ none) :
    ((∀ f ∈ fields, knownVisibility f.Hide) →
      astext.ObjectDescription (some fields) = .ok (objectText fields)) ∧
    ((∃ f ∈ fields, ¬ knownVisibility f.Hide) →
      ∃ hide, ¬ knownVisibility hide ∧
        astext.ObjectDescription (some fields) =
          .error (.error (.unknownVisibility hide))) ∧
    astext.ObjectDescription (some []) = .ok "(object) \x7b\x7d" ∧
    astext.ObjectDescription none = .error (.error .objectIsNil) := by
  refine ⟨?_, ?_, rfl, rfl⟩
  · intro hknown
    cases fields with
    | nil => rfl
    | cons f fs =>
      have hn := ObjectFieldName_getD (hnamed f (List.mem_cons_self _ _))
      have hv := ObjectFieldVisibility_known (hknown f (List.mem_cons_self _ _))
      simp only [astext.ObjectDescription, astext.objectDescriptionLoop, hn, hv,
        if_true]
      rw [objectDescriptionLoop_succ fs 0 _
        (fun g hg => hnamed g (List.mem_cons_of_mem _ hg))
        (fun g hg => hknown g (List.mem_cons_of_mem _ hg))]
      simp [objectText, fieldLines, String.append_assoc]
  · intro hex
    obtain ⟨hide, hk, h⟩ := objectDescriptionLoop_unknown fields 0 "(object) \x7b"
      hnamed hex
    exact ⟨hide, hk, by simp only [astext.ObjectDescription, h]⟩

/-- C16 on `{ a: 1, "my-field":: 2, c::: 3 }`: the quoted field is printed with
the text of its string literal, and the expected text of the specification is
the same literal string. -/
theorem astext.ObjectDescription_format_witness :
    astext.ObjectDescription (some Example.threeFields) =
      .ok "(object) \x7b\n  (field) a:,\n  (field) my-field::,\n  (field) c:::,\n\x7d" ∧
    objectText Example.threeFields =
      "(object) \x7b\n  (field) a:,\n  (field) my-field::,\n  (field) c:::,\n\x7d" :=
  ⟨(astext.ObjectDescription_format Example.threeFields
      (by
        intro f hf
        simp only [Example.threeFields, List.mem_cons, List.mem_singleton,
          List.not_mem_nil, or_false] at hf
        rcases hf with rfl | rfl | rfl <;> exact fun h => Option.noConfusion h)).1
      (by
        intro f hf
        simp only [Example.threeFields, List.mem_cons, List.mem_singleton,
          List.not_mem_nil, or_false] at hf
        rcases hf with rfl | rfl | rfl <;> decide),
    by decide⟩

/-! ## Text extraction -/

/-- C18: on the text `ab`, newline, `cd` and the range from 2:1 to 2:2, which
in the coordinates of the tree holds exactly `cd`, `extractRange` returns the
newline followed by `c`: the scanner counts the newline itself as column 1 of
the next line, so every character after the first line sits one column too far
to the right. -/
theorem locate.extractRange_shifted_after_newline :
    locate.extractRange "ab\ncd" ⟨"", ⟨2, 1⟩, ⟨2, 2⟩⟩ = "\nc" ∧
    extractRangeByTreePosition "ab\ncd" ⟨"", ⟨2, 1⟩, ⟨2, 2⟩⟩ = "cd" := by
  decide

/-! ## Index chains -/

section IndexLemmas

open ast astext locate

theorem handleIndexLoop_no_id (fuel : Nat) (l : Locatable) (cache : NodeCache)
    (loc : LocationRange) (target : Node) (idx : Option Node)
    (acc : List String) :
    handleIndexLoop fuel l cache (.mk loc (.Index target idx none)) acc =
      some (.error (.error .indexWithoutId)) := by
  simp [handleIndexLoop]

theorem handleIndexLoop_bad_target (fuel : Nat) (l : Locatable)
    (cache : NodeCache) (loc : LocationRange) (k : NodeKind) (acc : List String)
    (hindex : ∀ t i id, k ≠ .Index t i id) (hvar : ∀ id, k ≠ .Var id) :
    handleIndexLoop fuel l cache (.mk loc k) acc =
      some (.error (.error (.indexTarget k.goType))) := by
  cases k <;> first
    | rfl
    | exact absurd rfl (hindex _ _ _)
    | exact absurd rfl (hvar _)

theorem handleIndexLoop_var (fuel : Nat) (l : Locatable) (cache : NodeCache)
    (vloc : LocationRange) (x : String) (acc : List String) :
    handleIndexLoop fuel l cache (.mk vloc (.Var x)) acc =
      match l.Env.lookup x with
      | some ref =>
        withDescription
          (fun description =>
            { Location := ref.Loc, Token := l.Token, Description := description })
          (describe fuel ref.Token acc cache)
      | none => some (.error (.error (.notInEnv x))) := by
  simp only [handleIndexLoop]

theorem withDescription_isSome (build : String → Resolved)
    (r : Option (Res String)) :
    (withDescription build r).isSome = r.isSome := by
  unfold withDescription
  split <;> rfl

end IndexLemmas

/-- C19: on the index chain `x.n1.n2...nk` (`k ≥ 1`, every index node with an
identifier) whose root variable `x` is in the environment, `handleIndex`
returns the location of the entry of `x`, the token of the node and the
description `describe(Env[x].Token, [n1, ..., nk], cache)` with the names in
source order, an error of `describe` being passed on; its own loop always ends,
so it returns whenever `describe` does. A chain that contains an index node
without identifier, a chain whose innermost target is neither an index nor a
variable, and a chain whose root variable is absent from the environment each
give an error. -/
theorem locate.handleIndex_chain (fuel : Nat) (l ref : locate.Locatable)
    (cache : locate.NodeCache) (vloc : ast.LocationRange) (x : String)
    (s : locate.IndexStep) (steps : List locate.IndexStep)
    (henv : l.Env.lookup x = some ref) :
    locate.handleIndex fuel l (locate.indexChain (.mk vloc (.Var x)) (s :: steps))
        cache =
      locate.withDescription
        (fun description =>
          { Location := ref.Loc, Token := l.Token, Description := description })
        (locate.describe fuel ref.Token (s.Id :: steps.map locate.IndexStep.Id)
          cache) ∧
    (locate.handleIndex fuel l
        (locate.indexChain (.mk vloc (.Var x)) (s :: steps)) cache).isSome =
      (locate.describe fuel ref.Token (s.Id :: steps.map locate.IndexStep.Id)
        cache).isSome ∧
    (∀ (l2 : locate.Locatable) (loc : ast.LocationRange) (target : ast.Node)
        (idx : Option ast.Node) (outer : List locate.IndexStep),
      locate.handleIndex fuel l2
          (locate.indexChain (.mk loc (.Index target idx none)) outer) cache =
        some (.error (.error .indexWithoutId))) ∧
    (∀ (l2 : locate.Locatable) (loc : ast.LocationRange) (k : ast.NodeKind)
        (o : locate.IndexStep) (outer : List locate.IndexStep),
      (∀ t i id, k ≠ .Index t i id) → (∀ id, k ≠ .Var id) →
      locate.handleIndex fuel l2 (locate.indexChain (.mk loc k) (o :: outer)) cache =
        some (.error (.error (.indexTarget k.goType)))) ∧
    (∀ (l2 : locate.Locatable) (loc : ast.LocationRange) (y : String)
        (o : locate.IndexStep) (outer : List locate.IndexStep),
      l2.Env.lookup y = none →
      locate.handleIndex fuel l2 (locate.indexChain (.mk loc (.Var y)) (o :: outer))
          cache =
        some (.error (.error (.notInEnv y)))) := by
  have hmain : locate.handleIndex fuel l
      (locate.indexChain (.mk vloc (.Var x)) (s :: steps)) cache =
      locate.withDescription
        (fun description =>
          { Location := ref.Loc, Token := l.Token, Description := description })
        (locate.describe fuel ref.Token (s.Id :: steps.map locate.IndexStep.Id)
          cache) := by
    unfold locate.handleIndex
    rw [handleIndexLoop_indexChain, handleIndexLoop_var, henv]
    simp
  refine ⟨hmain, ?_, ?_, ?_, ?_⟩
  · rw [hmain, withDescription_isSome]
  · intro l2 loc target idx outer
    unfold locate.handleIndex
    rw [handleIndexLoop_indexChain, handleIndexLoop_no_id]
  · intro l2 loc k o outer hindex hvar
    unfold locate.handleIndex
    rw [handleIndexLoop_indexChain, handleIndexLoop_bad_target _ _ _ _ _ _ hindex hvar]
  · intro l2 loc y o outer hnone
    unfold locate.handleIndex
    rw [handleIndexLoop_indexChain, handleIndexLoop_var, hnone]

/-- C19 on `o.a.b` with `o` bound to `{ a: { b: 1 } }`: the names `a`, `b` are
looked up in that order and the description is `(number)`. -/
theorem locate.handleIndex_chain_witness :
    locate.handleIndex 3 Example.oabReference Example.oabNode Example.missCache =
      some (.ok { Location := Example.span 11 25,
                  Token := Example.oabReference.Token,
                  Description := "(number)" }) ∧
    locate.describe 3 Example.oBinding.Token ["a", "b"] Example.missCache =
      some (.ok "(number)") :=
  ⟨(locate.handleIndex_chain 3 Example.oabReference Example.oBinding
      Example.missCache (Example.span 28 28) "o"
      { loc := Example.span 28 30, Index := none, Id := "a" }
      [{ loc := Example.span 28 32, Index := none, Id := "b" }] rfl).1,
    rfl⟩

/-! ## The end of a description walk -/

section DescribeLemmas

open ast astext locate

/-- The function `TokenName` never returns a Go error: it returns a label or
panics. -/
theorem TokenName_no_error (t : Token) (e : Error) :
    TokenName t ≠ .error (.error e) := by
  intro h
  unfold TokenName at h
  split at h
  all_goals first
    | cases h
    | skip
  all_goals
    split at h
    · cases h
    · rename_i hn
      cases h
      unfold ObjectFieldName at hn
      split at hn
      · cases hn
      · split at hn <;> cases hn

theorem describe_leaf (fuel : Nat) (t : Token) (names : List String)
    (cache : NodeCache)
    (hobj : ∀ loc fields, t ≠ .node (.mk loc (.Object fields)))
    (himp : ∀ loc file, t ≠ .node (.mk loc (.Import file))) :
    describe (fuel + 1) t names cache = some (TokenName t) := by
  unfold describe
  split
  · exact absurd rfl (hobj _ _)
  · exact absurd rfl (himp _ _)
  · rfl

end DescribeLemmas

/-- What holds of the default case of `describe`: on a token `t` that is
neither an object literal nor an import,
`describe` returns what `TokenName` gives for `t`, whatever names remain, and
never an error; `TokenName` has no error result, so a label it returns is
returned with no error (and a panic of `TokenName` is the panic of
`describe`). So `describeInObject` on an object whose first field has the first
name and the value `t` succeeds with the label of `t` and ignores the
remaining names. -/
theorem locate.describe_stops_at_leaf (fuel : Nat) (t : Token)
    (names : List String) (cache : locate.NodeCache)
    (hobj : ∀ loc fields, t ≠ .node (.mk loc (.Object fields)))
    (himp : ∀ loc file, t ≠ .node (.mk loc (.Import file))) :
    locate.describe (fuel + 1) t names cache = some (astext.TokenName t) ∧
    (∀ e, locate.describe (fuel + 1) t names cache ≠ some (.error (.error e))) ∧
    (∀ label, astext.TokenName t = .ok label →
      locate.describe (fuel + 1) t names cache = some (.ok label)) ∧
    (∀ (f : ast.ObjectField) (fs : List ast.ObjectField) (name : String),
      astext.ObjectFieldName f = .ok name → t = .node f.Expr2 →
      locate.describeInObject (fuel + 1) (f :: fs) (name :: names) cache =
        some (astext.TokenName t)) := by
  have hleaf := describe_leaf fuel t names cache hobj himp
  refine ⟨hleaf, ?_, ?_, ?_⟩
  · intro e h
    rw [hleaf] at h
    exact TokenName_no_error t e (Option.some.inj h)
  · intro label hlabel
    rw [hleaf, hlabel]
  · intro f fs name hname ht
    simp only [locate.describeInObject, locate.describeInObjectWith,
      locate.describeFields, hname, ne_eq, not_true_eq_false, if_false]
    rw [← ht]
    exact hleaf

/-- The default case of `describe` on the object `{ a: 1 }` with the names `a`,
`b`: the description is `(number)` and no "unable to find field" error for `b`
arises. -/
theorem locate.describe_stops_at_leaf_witness :
    locate.describe 1 (.node (Example.number "1" 6)) ["b"] Example.missCache =
      some (.ok "(number)") ∧
    locate.describeInObject 1 Example.oneField ["a", "b"] Example.missCache =
      some (.ok "(number)") :=
  ⟨(locate.describe_stops_at_leaf 0 (.node (Example.number "1" 6)) ["b"]
      Example.missCache (fun _ _ h => by cases h) (fun _ _ h => by cases h)).2.2.1
      "(number)" rfl,
    (locate.describe_stops_at_leaf 0 (.node (Example.number "1" 6)) ["b"]
      Example.missCache (fun _ _ h => by cases h) (fun _ _ h => by cases h)).2.2.2
      (.mk ast.ObjectFieldInherit (some "a") none (Example.number "1" 6)) []
      "a" rfl rfl⟩

/-- C20: on a super index without an identifier (`super["x"]`), a token that is
neither an object literal nor an import, `describe` returns no kind label: the
default case calls `TokenName`, which dereferences the nil `Id` and panics.
So does `describeInObject` on the object `{ a: super["x"] }` with the names
`a`, `b`. -/
theorem locate.describe_super_index_panics :
    locate.describe 1 (.node (.mk (Example.span 6 15) (.SuperIndex none))) ["b"]
        Example.missCache =
      some (.error (.panic "invalid memory address or nil pointer dereference")) ∧
    locate.describeInObject 1 Example.superField ["a", "b"] Example.missCache =
      some (.error (.panic "invalid memory address or nil pointer dereference")) :=
  ⟨rfl, rfl⟩
